import Mathlib

/-!
# Receipt processor: scoring engine and receipt store

A shallow embedding of `main.go` (package `main` of the receipt processor) together with the
parts of the Go standard library that `calculatePoints` calls: `strconv.ParseFloat`,
float64 arithmetic, `math.Mod`, `math.Ceil`, the float64/int conversions, `strings.TrimSpace`,
`time.Parse` for the two layouts used, and 64-bit `int` addition.

Conventions.
* A Go `string` that reaches the handlers was produced by `encoding/json`, hence is valid UTF-8;
  it is represented by a Lean `String`, and `len` is the number of UTF-8 bytes.
* A float64 is represented by its exact value (a rational), or an infinity, or NaN.  The two
  zeros are identified: the program observes floats only through `==`, `>`, `int(..)`,
  none of which tells `-0` from `+0`.
* Go's `int` is the 64-bit two's-complement integer; sums are reduced with `wrapInt`.
* The result of converting a float64 that does not fit into `int` is implementation-specific
  in Go; it is a parameter (`Arch`) of the embedding.
-/

namespace ReceiptProcessor

/-! ## Go `int` -/

/-- Two's-complement reduction of an integer to Go's 64-bit `int`. -/
def wrapInt (x : Int) : Int :=
  (x + 2 ^ 63) % 2 ^ 64 - 2 ^ 63

/-- Go's `a + b` on `int`. -/
def addInt (a b : Int) : Int :=
  wrapInt (a + b)

/-- The values of Go's `int`. -/
def InIntRange (x : Int) : Prop :=
  -(2 ^ 63) ≤ x ∧ x < 2 ^ 63

instance (x : Int) : Decidable (InIntRange x) := by
  unfold InIntRange; infer_instance

/-! ## float64 -/

/-- A float64 value: NaN, an infinity with its sign, or a finite value given exactly. -/
inductive F64 where
  | nan : F64
  | inf (neg : Bool) : F64
  | fin (q : ℚ) : F64
  deriving DecidableEq

/-- The rational `2 ^ e` for an integer exponent. -/
def pow2 (e : Int) : ℚ :=
  if 0 ≤ e then ((2 ^ e.toNat : ℕ) : ℚ) else 1 / ((2 ^ (-e).toNat : ℕ) : ℚ)

/-- Binary logarithm by repeated halving; `fuel` bounds the number of halvings. -/
def log2Fuel : Nat → Nat → Nat
  | 0, _ => 0
  | fuel + 1, n => if n < 2 then 0 else log2Fuel fuel (n / 2) + 1

/-- The natural number `l` with `2 ^ l ≤ n < 2 ^ (l + 1)`, for `n > 0`. -/
def log2n (n : Nat) : Nat :=
  log2Fuel n n

/-- The integer `l` with `2 ^ l ≤ a < 2 ^ (l + 1)`, for a positive rational `a`. -/
def ilog2 (a : ℚ) : Int :=
  let l0 : Int := (log2n a.num.natAbs : Int) - (log2n a.den : Int)
  if pow2 l0 ≤ a then l0 else l0 - 1

/-- Round a non-negative rational to the nearest integer, ties to the even one. -/
def roundHalfEven (s : ℚ) : Int :=
  let m : Int := ⌊s⌋
  let f : ℚ := s - m
  if f < 1 / 2 then m else if 1 / 2 < f then m + 1 else if m % 2 = 0 then m else m + 1

/-- The exponent of the unit in the last place of the float64 values around the positive
rational `a`: 52 below the exponent of `a` for a normal value, `-1074` for a subnormal one. -/
def ulpExp (a : ℚ) : Int :=
  max (ilog2 a) (-1022) - 52

/-- The magnitude of the float64 nearest to the positive rational `a` (IEEE 754 binary64,
round to nearest, ties to even; 53-bit significand), before the overflow test. -/
def roundMag (a : ℚ) : ℚ :=
  (roundHalfEven (a / pow2 (ulpExp a)) : ℚ) * pow2 (ulpExp a)

/-- Does rounding the rational `q` to float64 overflow. -/
def F64.overflows (q : ℚ) : Bool :=
  decide (pow2 1024 ≤ roundMag |q|)

/-- The float64 nearest to a rational: IEEE 754 round to nearest even, overflow to an infinity. -/
def F64.ofRat (q : ℚ) : F64 :=
  if q = 0 then F64.fin 0
  else if F64.overflows q then F64.inf (decide (q < 0))
  else F64.fin (if q < 0 then -roundMag |q| else roundMag |q|)

/-- The finite float64 values: a significand below `2 ^ 53` scaled by a power of two no less
than `2 ^ (-1074)`, of magnitude below `2 ^ 1024`. -/
def Representable (q : ℚ) : Prop :=
  ∃ (M : Nat) (E : Int), M < 2 ^ 53 ∧ -1074 ≤ E ∧ |q| = M * pow2 E ∧ |q| < pow2 1024

/-- Go's `x * y` on float64. -/
def F64.mul : F64 → F64 → F64
  | F64.nan, _ => F64.nan
  | _, F64.nan => F64.nan
  | F64.inf a, F64.inf b => F64.inf (a != b)
  | F64.inf a, F64.fin y => if y = 0 then F64.nan else F64.inf (a != decide (y < 0))
  | F64.fin x, F64.inf b => if x = 0 then F64.nan else F64.inf (decide (x < 0) != b)
  | F64.fin x, F64.fin y => F64.ofRat (x * y)

/-- Go's `x == y` on float64. -/
def F64.eq : F64 → F64 → Bool
  | F64.fin x, F64.fin y => decide (x = y)
  | F64.inf a, F64.inf b => a == b
  | _, _ => false

/-- Go's `x > y` on float64. -/
def F64.gt : F64 → F64 → Bool
  | F64.fin x, F64.fin y => decide (y < x)
  | F64.inf a, F64.inf b => !a && b
  | F64.inf a, F64.fin _ => !a
  | F64.fin _, F64.inf b => b
  | _, _ => false

/-- Go's `math.Mod(x, y)`: the remainder of `x / y` truncated towards zero, with the sign of
`x`; NaN when `x` is infinite or NaN, or `y` is zero or NaN; `x` when `y` is infinite.
The finite remainder is exact in float64. -/
def Mod : F64 → F64 → F64
  | F64.fin x, F64.fin y =>
    if y = 0 then F64.nan
    else
      let r : ℚ := |x| - |y| * ((⌊|x| / |y|⌋ : Int) : ℚ)
      F64.fin (if x < 0 then -r else r)
  | F64.fin x, F64.inf _ => F64.fin x
  | _, _ => F64.nan

/-- Go's `math.Ceil`. -/
def Ceil : F64 → F64
  | F64.fin x => F64.fin ((⌈x⌉ : Int) : ℚ)
  | x => x

/-- The implementation-specific part of Go's float64 to `int` conversion: the value produced
for an operand (NaN, an infinity, or a finite value out of range) that `int` cannot represent. -/
structure Arch where
  /-- The raw result for an unrepresentable operand; it is reduced to the `int` range. -/
  invalid : F64 → Int

/-- The amd64 port: `CVTTSD2SQ` yields the "integer indefinite" value `-2^63`. -/
def amd64 : Arch :=
  ⟨fun _ => -(2 ^ 63)⟩

/-- The arm64 port: `FCVTZS` saturates, and maps NaN to 0. -/
def arm64 : Arch :=
  ⟨fun x => match x with
    | F64.nan => 0
    | F64.inf neg => if neg then -(2 ^ 63) else 2 ^ 63 - 1
    | F64.fin q => if q < 0 then -(2 ^ 63) else 2 ^ 63 - 1⟩

/-- Truncation of a rational towards zero. -/
def truncQ (q : ℚ) : Int :=
  if 0 ≤ q then ⌊q⌋ else ⌈q⌉

/-- Go's `int(x)` for a float64 `x`: truncation towards zero when the result fits. -/
def f2i (arch : Arch) : F64 → Int
  | F64.fin q => if InIntRange (truncQ q) then truncQ q else wrapInt (arch.invalid (F64.fin q))
  | x => wrapInt (arch.invalid x)

/-- Go's `float64(n)` for an `int` `n`. -/
def i2f (n : Int) : F64 :=
  F64.ofRat (n : ℚ)

/-! ## `strconv.ParseFloat` -/

/-- The error kinds of `strconv.NumError`. -/
inductive NumErr where
  | errSyntax : NumErr
  | errRange : NumErr
  deriving DecidableEq

/-- The value of a decimal digit character. -/
def digitVal (c : Char) : Nat :=
  c.toNat - 48

/-- Is the byte a hexadecimal letter: `'a' <= lower(c) && lower(c) <= 'f'`. -/
def isHexLetter (c : Char) : Bool :=
  (97 ≤ c.toNat && c.toNat ≤ 102) || (65 ≤ c.toNat && c.toNat ≤ 70)

/-- The value of a hexadecimal letter: `lower(c) - 'a' + 10`. -/
def hexLetterVal (c : Char) : Nat :=
  if 97 ≤ c.toNat then c.toNat - 97 + 10 else c.toNat - 65 + 10

/-- Go's `lower(c) == x` for a lower-case ASCII letter `x`. -/
def lowerIs (c x : Char) : Bool :=
  c = x || c.toNat + 32 = x.toNat

/-- Length of the common prefix of `s` and the lower-case word `w`, ignoring the case of `s`
(`strconv.commonPrefixLenIgnoreCase`). -/
def commonPrefixLenIgnoreCase : List Char → List Char → Nat
  | c :: s, p :: w =>
    let c1 : Nat := if 65 ≤ c.toNat ∧ c.toNat ≤ 90 then c.toNat + 32 else c.toNat
    if c1 = p.toNat then commonPrefixLenIgnoreCase s w + 1 else 0
  | _, _ => 0

/-- The infinity or NaN spelled by a prefix of `s`, with the number of bytes it takes
(`strconv.special`). -/
def special (s : List Char) : Option (F64 × Nat) :=
  match s with
  | [] => none
  | c :: rest =>
    if c = '+' ∨ c = '-' then
      let n := commonPrefixLenIgnoreCase rest "infinity".data
      let n := if 3 < n ∧ n < 8 then 3 else n
      if n = 3 ∨ n = 8 then some (F64.inf (decide (c = '-')), 1 + n) else none
    else if c = 'i' ∨ c = 'I' then
      let n := commonPrefixLenIgnoreCase s "infinity".data
      let n := if 3 < n ∧ n < 8 then 3 else n
      if n = 3 ∨ n = 8 then some (F64.inf false, n) else none
    else if c = 'n' ∨ c = 'N' then
      if commonPrefixLenIgnoreCase s "nan".data = 3 then some (F64.nan, 3) else none
    else none

/-- The state of the digit loop of `strconv.readFloat`.  `mant` holds every digit read (Go keeps
the first 19 and a truncation flag, and re-reads the text when the flag decides the rounding). -/
structure Scan where
  /-- The digits read so far, as a number in the base of the literal. -/
  mant : Nat
  /-- The number of digits read, leading zeros apart. -/
  nd : Nat
  /-- The position of the point. -/
  dp : Int
  /-- A point has been read. -/
  sawdot : Bool
  /-- A digit has been read. -/
  sawdigits : Bool
  /-- An underscore has been read. -/
  underscores : Bool

/-- The digit loop of `strconv.readFloat`: returns the state and the unread rest. -/
def scanDigits (hex : Bool) : Scan → List Char → Scan × List Char
  | st, [] => (st, [])
  | st, c :: cs =>
    if c = '_' then scanDigits hex { st with underscores := true } cs
    else if c = '.' then
      if st.sawdot then (st, c :: cs)
      else scanDigits hex { st with sawdot := true, dp := st.nd } cs
    else if c.isDigit then
      if c = '0' ∧ st.nd = 0 then
        scanDigits hex { st with sawdigits := true, dp := st.dp - 1 } cs
      else
        scanDigits hex { st with sawdigits := true, nd := st.nd + 1,
                                 mant := st.mant * (if hex then 16 else 10) + digitVal c } cs
    else if hex && isHexLetter c then
      scanDigits hex { st with sawdigits := true, nd := st.nd + 1,
                               mant := st.mant * 16 + hexLetterVal c } cs
    else (st, c :: cs)

/-- The exponent digit loop of `strconv.readFloat`: the exponent saturates once it has reached
10000; returns the exponent, whether an underscore was read, and the unread rest. -/
def scanExp : Nat → Bool → List Char → Nat × Bool × List Char
  | e, u, [] => (e, u, [])
  | e, u, c :: cs =>
    if c = '_' then scanExp e true cs
    else if c.isDigit then scanExp (if e < 10000 then e * 10 + digitVal c else e) u cs
    else (e, u, c :: cs)

/-- The scan of `strconv.underscoreOK` after the sign and base prefix; `saw` is the class of the
last byte: 0 for a digit or the base prefix, 1 for an underscore, 2 for anything else,
3 at the beginning. -/
def underscoreLoop (hex : Bool) : Nat → List Char → Bool
  | saw, [] => saw != 1
  | saw, c :: cs =>
    if c.isDigit || (hex && isHexLetter c) then underscoreLoop hex 0 cs
    else if c = '_' then (if saw != 0 then false else underscoreLoop hex 1 cs)
    else if saw = 1 then false
    else underscoreLoop hex 2 cs

/-- Underscores may only separate digits, or a base prefix from a digit
(`strconv.underscoreOK`). -/
def underscoreOK (s : List Char) : Bool :=
  let s := match s with
    | c :: rest => if c = '-' ∨ c = '+' then rest else s
    | [] => s
  match s with
  | c0 :: c1 :: rest =>
    if c0 = '0' ∧ (lowerIs c1 'b' ∨ lowerIs c1 'o' ∨ lowerIs c1 'x') then
      underscoreLoop (lowerIs c1 'x') 0 rest
    else underscoreLoop false 3 s
  | _ => underscoreLoop false 3 s

/-- What `strconv.readFloat` returns when it accepts a prefix of the text. -/
structure Literal where
  /-- The digits, as a number in the base of the literal. -/
  mant : Nat
  /-- The exponent of the base (10, or 2 for a hexadecimal literal) that scales `mant`. -/
  exp : Int
  /-- A minus sign was read. -/
  neg : Bool
  /-- The literal is hexadecimal. -/
  hex : Bool
  /-- The unread rest of the text. -/
  rest : List Char

/-- The optional exponent part of `strconv.readFloat`; `dp` is the position of the point and
`width` the width of the digits in the unit of the exponent.  Returns the exponent that scales
the digits, whether an underscore was read, and the unread rest. -/
def readExponent (hex : Bool) (dp : Int) (width : Nat) (s : List Char) :
    Option (Int × Bool × List Char) :=
  match s with
  | c :: s1 =>
    if lowerIs c (if hex then 'p' else 'e') then
      match s1 with
      | [] => none
      | d :: s2 =>
        let esign : Int := if d = '-' then -1 else 1
        let s3 := if d = '+' ∨ d = '-' then s2 else s1
        match s3 with
        | [] => none
        | d3 :: _ =>
          if d3.isDigit then
            let r := scanExp 0 false s3
            some (dp + (r.1 : Int) * esign - width, r.2.1, r.2.2)
          else none
    else if hex then none
    else some (dp - width, false, s)
  | [] => if hex then none else some (dp - width, false, [])

/-- Go's `strconv.readFloat`: sign, digits with an optional point, optional exponent. -/
def readFloat (s : List Char) : Option Literal :=
  match s with
  | [] => none
  | c :: tl =>
    let neg : Bool := decide (c = '-')
    let s1 := if c = '+' ∨ c = '-' then tl else s
    let hex : Bool := match s1 with
      | c0 :: c1 :: _ :: _ => decide (c0 = '0') && lowerIs c1 'x'
      | _ => false
    let s2 := if hex then s1.drop 2 else s1
    let r := scanDigits hex ⟨0, 0, 0, false, false, false⟩ s2
    let st := r.1
    if !st.sawdigits then none
    else
      let dp : Int := if st.sawdot then st.dp else st.nd
      let dp : Int := if hex then dp * 4 else dp
      let width : Nat := if hex then st.nd * 4 else st.nd
      match readExponent hex dp width r.2 with
      | none => none
      | some (exp, u, rest) =>
        if (st.underscores || u) && !underscoreOK (s.take (s.length - rest.length)) then none
        else some ⟨st.mant, if st.mant = 0 then 0 else exp, neg, hex, rest⟩

/-- The exact value of an accepted literal. -/
def Literal.value (l : Literal) : ℚ :=
  let b : ℚ := if l.hex then 2 else 10
  let m : ℚ := if 0 ≤ l.exp then (l.mant : ℚ) * b ^ l.exp.toNat
    else (l.mant : ℚ) / b ^ (-l.exp).toNat
  if l.neg then -m else m

/-- Go's `strconv.atof64`: the value, the number of bytes read, and the error.  The value of an
accepted literal is the float64 nearest to it (ties to even); a literal too large in magnitude
gives an infinity and `ErrRange`. -/
def atof64 (s : List Char) : F64 × Nat × Option NumErr :=
  match special s with
  | some (v, n) => (v, n, none)
  | none =>
    match readFloat s with
    | none => (F64.fin 0, 0, some NumErr.errSyntax)
    | some l =>
      let n := s.length - l.rest.length
      if F64.overflows l.value then (F64.ofRat l.value, n, some NumErr.errRange)
      else (F64.ofRat l.value, n, none)

/-- Go's `strconv.ParseFloat(s, 64)`: the whole text must be one literal. -/
def ParseFloat (s : String) : F64 × Option NumErr :=
  let r := atof64 s.data
  if r.2.1 ≠ s.data.length ∧ r.2.2 ≠ some NumErr.errSyntax then
    (F64.fin 0, some NumErr.errSyntax)
  else (r.1, r.2.2)

/-! ## Strings: `len`, `strings.TrimSpace`, and the retailer pattern -/

/-- Go's `len(s)`: the number of bytes of the UTF-8 encoding. -/
def len (s : List Char) : Nat :=
  (s.map Char.utf8Size).sum

/-- Go's `unicode.IsSpace`. -/
def isSpace (c : Char) : Bool :=
  let n := c.toNat
  (9 ≤ n && n ≤ 13) || n = 32 || n = 0x85 || n = 0xA0 || n = 0x1680 ||
  (0x2000 ≤ n && n ≤ 0x200A) || n = 0x2028 || n = 0x2029 || n = 0x202F || n = 0x205F ||
  n = 0x3000

/-- Go's `strings.TrimSpace`: drops the white space at both ends. -/
def TrimSpace (s : List Char) : List Char :=
  ((s.dropWhile isSpace).reverse.dropWhile isSpace).reverse

/-- Does the character match the pattern `[a-zA-Z0-9]`. -/
def isAlnum (c : Char) : Bool :=
  let n := c.toNat
  (97 ≤ n && n ≤ 122) || (65 ≤ n && n ≤ 90) || (48 ≤ n && n ≤ 57)

/-- The matches of `[a-zA-Z0-9]` in a text, as `FindAllString(s, -1)` lists them: one per
matching character. -/
def FindAllString (s : List Char) : List Char :=
  s.filter isAlnum

/-! ## `time.Parse` for the layouts `2006-01-02` and `15:04` -/

/-- The fields of a `time.Time` that the program reads. -/
structure Time where
  /-- The year. -/
  year : Nat
  /-- The month, 1 to 12. -/
  month : Nat
  /-- The day of the month. -/
  day : Nat
  /-- The hour, 0 to 23. -/
  hour : Nat
  /-- The minute. -/
  minute : Nat
  deriving DecidableEq

/-- The zero `time.Time`, which `time.Parse` returns with every error: January 1, year 1,
00:00:00 UTC. -/
def Time.zero : Time :=
  ⟨1, 1, 1, 0, 0⟩

/-- Go's `Time.Day`. -/
def Time.Day (t : Time) : Nat :=
  t.day

/-- Go's `Time.Hour`. -/
def Time.Hour (t : Time) : Nat :=
  t.hour

/-- Go's `time.getnum`: one or two digits, exactly two when `fixed`. -/
def getnum (s : List Char) (fixed : Bool) : Option (Nat × List Char) :=
  match s with
  | c0 :: c1 :: rest =>
    if !c0.isDigit then none
    else if !c1.isDigit then (if fixed then none else some (digitVal c0, c1 :: rest))
    else some (digitVal c0 * 10 + digitVal c1, rest)
  | [c0] => if !c0.isDigit then none else if fixed then none else some (digitVal c0, [])
  | [] => none

/-- Go's `time.isLeap`. -/
def isLeap (year : Nat) : Bool :=
  year % 4 = 0 && (year % 100 != 0 || year % 400 = 0)

/-- Go's `time.daysIn`. -/
def daysIn (month year : Nat) : Nat :=
  if month = 2 then (if isLeap year then 29 else 28)
  else if month = 4 ∨ month = 6 ∨ month = 9 ∨ month = 11 then 30 else 31

/-- Go's `time.Parse("2006-01-02", value)`: four digits, `-`, two digits of a month 1 to 12,
`-`, two digits, nothing more, and the day must exist in that month; `none` is an error. -/
def parseDate (value : List Char) : Option Time :=
  match value with
  | y0 :: y1 :: y2 :: y3 :: v1 =>
    if !(y0.isDigit && y1.isDigit && y2.isDigit && y3.isDigit) then none
    else
      let year := digitVal y0 * 1000 + digitVal y1 * 100 + digitVal y2 * 10 + digitVal y3
      match v1 with
      | sep1 :: v2 =>
        if sep1 ≠ '-' then none
        else
          match getnum v2 true with
          | none => none
          | some (month, v3) =>
            if month = 0 ∨ 12 < month then none
            else
              match v3 with
              | sep2 :: v4 =>
                if sep2 ≠ '-' then none
                else
                  match getnum v4 true with
                  | none => none
                  | some (day, v5) =>
                    if v5 ≠ [] then none
                    else if day < 1 ∨ daysIn month year < day then none
                    else some ⟨year, month, day, 0, 0⟩
              | [] => none
      | [] => none
  | _ => none

/-- Go's `time.Parse("15:04", value)`: one or two digits of an hour below 24, `:`, two digits
of a minute below 60, nothing more; `none` is an error. -/
def parseClock (value : List Char) : Option Time :=
  match getnum value false with
  | none => none
  | some (hour, v1) =>
    if 24 ≤ hour then none
    else
      match v1 with
      | sep :: v2 =>
        if sep ≠ ':' then none
        else
          match getnum v2 true with
          | none => none
          | some (minute, v3) =>
            if 60 ≤ minute then none
            else if v3 ≠ [] then none
            else some ⟨0, 1, 1, hour, minute⟩
      | [] => none

/-- The value of `t` after `t, _ := time.Parse(..)`: the zero time when parsing failed. -/
def timeOrZero (r : Option Time) : Time :=
  r.getD Time.zero

/-! ## The program -/

/-- The type `Item` of `main.go`. -/
structure Item where
  /-- The field `shortDescription`. -/
  ShortDescription : String
  /-- The field `price`. -/
  Price : String
  deriving DecidableEq

/-- The type `Receipt` of `main.go`. -/
structure Receipt where
  /-- The field `retailer`. -/
  Retailer : String
  /-- The field `purchaseDate`. -/
  PurchaseDate : String
  /-- The field `purchaseTime`. -/
  PurchaseTime : String
  /-- The field `items`. -/
  Items : List Item
  /-- The field `total`. -/
  Total : String
  deriving DecidableEq

/-- The float64 constant `0.2`. -/
def c0_2 : F64 :=
  F64.ofRat (1 / 5)

/-- The body of the loop of Rule 5 in `calculatePoints`. -/
def itemStep (arch : Arch) (totalPoints : Int) (item : Item) : Int :=
  if len (TrimSpace item.ShortDescription.data) % 3 = 0 then
    let price := (ParseFloat item.Price).1
    addInt totalPoints (f2i arch (Ceil (F64.mul price c0_2)))
  else totalPoints

/-- The function `calculatePoints` of `main.go`. -/
def calculatePoints (arch : Arch) (receipt : Receipt) : Int :=
  let totalPoints : Int := 0
  -- Rule 1
  let totalPoints := addInt totalPoints (FindAllString receipt.Retailer.data).length
  -- Rule 2
  let total := (ParseFloat receipt.Total).1
  let totalPoints := if F64.eq total (i2f (f2i arch total)) then addInt totalPoints 50
    else totalPoints
  -- Rule 3
  let totalPoints := if F64.eq (Mod (F64.mul total (F64.fin 100)) (F64.fin 25)) (F64.fin 0)
    then addInt totalPoints 25 else totalPoints
  -- Rule 4
  let totalPoints := addInt totalPoints ((receipt.Items.length : Int) / 2 * 5)
  -- Rule 5
  let totalPoints := receipt.Items.foldl (itemStep arch) totalPoints
  -- Rule 6
  let purchaseDate := timeOrZero (parseDate receipt.PurchaseDate.data)
  let totalPoints := if purchaseDate.Day % 2 ≠ 0 then addInt totalPoints 6 else totalPoints
  -- Rule 7
  let purchaseTime := timeOrZero (parseClock receipt.PurchaseTime.data)
  let totalPoints := if purchaseTime.Hour ≥ 14 ∧ purchaseTime.Hour < 16
    then addInt totalPoints 10 else totalPoints
  -- Rule 8
  let totalPoints := if F64.gt total (F64.fin 10) then addInt totalPoints 5 else totalPoints
  totalPoints

/-- The contribution of Rule 1: the number of matches of `[a-zA-Z0-9]` in the retailer name. -/
def rule1 (receipt : Receipt) : Int :=
  (FindAllString receipt.Retailer.data).length

/-- The contribution of Rule 2: 50 when `total == float64(int(total))`. -/
def rule2 (arch : Arch) (receipt : Receipt) : Int :=
  let total := (ParseFloat receipt.Total).1
  if F64.eq total (i2f (f2i arch total)) then 50 else 0

/-- The contribution of Rule 3: 25 when `math.Mod(total*100, 25) == 0`. -/
def rule3 (receipt : Receipt) : Int :=
  let total := (ParseFloat receipt.Total).1
  if F64.eq (Mod (F64.mul total (F64.fin 100)) (F64.fin 25)) (F64.fin 0) then 25 else 0

/-- The contribution of Rule 4: 5 for every two items. -/
def rule4 (receipt : Receipt) : Int :=
  (receipt.Items.length : Int) / 2 * 5

/-- What one item adds under Rule 5: `int(math.Ceil(price * 0.2))` when the trimmed description
has a length that is a multiple of 3. -/
def itemPoints (arch : Arch) (item : Item) : Int :=
  if len (TrimSpace item.ShortDescription.data) % 3 = 0 then
    f2i arch (Ceil (F64.mul (ParseFloat item.Price).1 c0_2))
  else 0

/-- Does Rule 5 apply to the item: the trimmed description has a length that is a multiple
of 3. -/
def qualifies (item : Item) : Bool :=
  len (TrimSpace item.ShortDescription.data) % 3 = 0

/-- The points of a price: `int(math.Ceil(price * 0.2))`. -/
def pricePoints (arch : Arch) (price : String) : Int :=
  f2i arch (Ceil (F64.mul (ParseFloat price).1 c0_2))

/-- What the loop of Rule 5 adds to a total of zero. -/
def descriptionPoints (arch : Arch) (items : List Item) : Int :=
  items.foldl (itemStep arch) 0

/-- The contribution of Rule 5 as a plain sum over the items. -/
def rule5 (arch : Arch) (receipt : Receipt) : Int :=
  (receipt.Items.map (itemPoints arch)).sum

/-- The contribution of Rule 6: 6 when the day of the purchase date is odd. -/
def rule6 (receipt : Receipt) : Int :=
  if (timeOrZero (parseDate receipt.PurchaseDate.data)).Day % 2 ≠ 0 then 6 else 0

/-- The contribution of Rule 7: 10 when the hour of the purchase time is 14 or 15. -/
def rule7 (receipt : Receipt) : Int :=
  let purchaseTime := timeOrZero (parseClock receipt.PurchaseTime.data)
  if purchaseTime.Hour ≥ 14 ∧ purchaseTime.Hour < 16 then 10 else 0

/-- The contribution of Rule 8: 5 when `total > 10.00`. -/
def rule8 (receipt : Receipt) : Int :=
  if F64.gt (ParseFloat receipt.Total).1 (F64.fin 10) then 5 else 0

/-- The plain sum of the eight rule contributions. -/
def ruleSum (arch : Arch) (receipt : Receipt) : Int :=
  rule1 receipt + rule2 arch receipt + rule3 receipt + rule4 receipt + rule5 arch receipt +
    rule6 receipt + rule7 receipt + rule8 receipt

/-! ## The receipt store and the two handlers -/

/-- The two package-level maps of `main.go`. -/
structure Store where
  /-- The map `receipts`. -/
  receipts : String → Option Receipt
  /-- The map `points`. -/
  points : String → Option Int

/-- The two maps as `make` leaves them. -/
def Store.empty : Store :=
  ⟨fun _ => none, fun _ => none⟩

/-- Go's map assignment `m[k] = v`. -/
def mapSet {α : Type} (m : String → Option α) (k : String) (v : α) : String → Option α :=
  fun x => if x = k then some v else m x

/-- The type `ReceiptResponse` of `main.go`. -/
structure ReceiptResponse where
  /-- The field `id`. -/
  ID : String
  deriving DecidableEq

/-- The type `PointsResponse` of `main.go`. -/
structure PointsResponse where
  /-- The field `points`. -/
  Points : Int
  deriving DecidableEq

/-- What a handler writes: a JSON body with status 200, or `http.Error` with a status and a
message. -/
inductive Response (α : Type) where
  | ok (body : α) : Response α
  | error (status : Nat) (message : String) : Response α
  deriving DecidableEq

/-- The handler `processReceipt`.  `body` is the outcome of decoding the request body (the
decoder's message when it fails) and `id` the string of the UUID that `uuid.New` draws.
Returns the new store and the response. -/
def processReceipt (arch : Arch) (s : Store) (id : String) (body : Except String Receipt) :
    Store × Response ReceiptResponse :=
  match body with
  | Except.error err => (s, Response.error 400 err)
  | Except.ok receipt =>
    let receipts := mapSet s.receipts id receipt
    let points := mapSet s.points id (calculatePoints arch receipt)
    (⟨receipts, points⟩, Response.ok ⟨id⟩)

/-- The handler `getPoints`; a key missing from `points` reads as 0. -/
def getPoints (s : Store) (id : String) : Response PointsResponse :=
  match s.receipts id with
  | none => Response.error 404 "Receipt not found"
  | some _ => Response.ok ⟨(s.points id).getD 0⟩

/-- A request served by the router. -/
inductive Request where
  | process (id : String) (body : Except String Receipt) : Request
  | points (id : String) : Request

/-- The store after one request. -/
def step (arch : Arch) (s : Store) : Request → Store
  | Request.process id body => (processReceipt arch s id body).1
  | Request.points _ => s

/-- The store after a sequence of requests served from the empty store. -/
def run (arch : Arch) (reqs : List Request) : Store :=
  reqs.foldl (step arch) Store.empty

/-- The identifiers that the submissions among the requests returned. -/
def returnedIds : List Request → List String
  | [] => []
  | Request.process id (Except.ok _) :: rest => id :: returnedIds rest
  | _ :: rest => returnedIds rest

/-- The two maps agree: they have the same keys, and every key maps in `points` to
`calculatePoints` of what it maps to in `receipts`. -/
def Consistent (arch : Arch) (s : Store) : Prop :=
  ∀ id, (s.receipts id = none → s.points id = none) ∧
    (∀ receipt, s.receipts id = some receipt →
      s.points id = some (calculatePoints arch receipt))

/-! ## Sample receipts -/

/-- The first example receipt of the service: retailer `Target`, five items. -/
def targetReceipt : Receipt :=
  ⟨"Target", "2022-01-01", "13:01",
    [⟨"Mountain Dew 12PK", "6.49"⟩, ⟨"Emils Cheese Pizza", "12.25"⟩,
     ⟨"Knorr Creamy Chicken", "1.26"⟩, ⟨"Doritos Nacho Cheese", "3.35"⟩,
     ⟨"   Klarbrunn 12-PK 12 FL OZ  ", "12.00"⟩],
    "35.35"⟩

/-- A receipt with two items priced `4e19` each. -/
def hugePricesReceipt : Receipt :=
  ⟨"", "2022-01-02", "", [⟨"abc", "4e19"⟩, ⟨"abc", "4e19"⟩], "0.01"⟩

/-- A receipt whose total is not a number and whose date and time are empty. -/
def malformedTotalReceipt : Receipt :=
  ⟨"", "", "", [], "abc"⟩

/-- A receipt whose total is the whole number `10^19`. -/
def wholeHugeTotalReceipt : Receipt :=
  ⟨"", "2022-01-02", "", [], "10000000000000000000"⟩

/-- A receipt whose total is the whole number `2^53 - 1`. -/
def longTotalReceipt : Receipt :=
  ⟨"", "2022-01-02", "", [], "9007199254740991"⟩

/-- A receipt with the total `9.00`. -/
def nineDollarReceipt : Receipt :=
  ⟨"M&M Corner Market", "2022-03-20", "14:33",
    [⟨"Gatorade", "2.25"⟩, ⟨"Gatorade", "2.25"⟩, ⟨"Gatorade", "2.25"⟩, ⟨"Gatorade", "2.25"⟩],
    "9.00"⟩

/-- A receipt with one item of negative price. -/
def negativePriceReceipt : Receipt :=
  ⟨"", "2022-01-02", "", [⟨"abc", "-100"⟩], "0.01"⟩

/-- Two items priced `3e19` each. -/
def hugeItems : List Item :=
  [⟨"abc", "3e19"⟩, ⟨"def", "3e19"⟩]

/-- A receipt with a round total just above the range in which `total*100` is exact. -/
def roundLongTotalReceipt : Receipt :=
  ⟨"", "2022-01-02", "", [], "9007199254740989"⟩

/-- A receipt whose total exceeds the float64 range. -/
def outOfRangeTotalReceipt : Receipt :=
  ⟨"", "2022-01-02", "", [], "1e999"⟩

/-- A receipt with two different items. -/
def twoItemsReceipt : Receipt :=
  ⟨"Target", "2022-01-01", "13:01", [⟨"Emils Cheese Pizza", "12.25"⟩, ⟨"Gatorade", "2.25"⟩],
    "14.50"⟩

/-- The receipt `twoItemsReceipt` with its items in the other order. -/
def twoItemsSwappedReceipt : Receipt :=
  ⟨"Target", "2022-01-01", "13:01", [⟨"Gatorade", "2.25"⟩, ⟨"Emils Cheese Pizza", "12.25"⟩],
    "14.50"⟩

/-- The store after the `Target` receipt was submitted under the identifier `a`. -/
def oneReceiptStore : Store :=
  (processReceipt amd64 Store.empty "a" (Except.ok targetReceipt)).1

/-- An item whose description is `\u00e9a`: two characters, three bytes. -/
def twoCharItem : Item :=
  ⟨"\u00e9a", "5"⟩

/-- An item whose description is `\u00e9ab`: three characters, four bytes. -/
def threeCharItem : Item :=
  ⟨"\u00e9ab", "5"⟩

/-- A receipt whose total lies below the float64 range. -/
def negativeOutOfRangeTotalReceipt : Receipt :=
  ⟨"", "2022-01-02", "", [], "-1e999"⟩

/-! ## Go `int` arithmetic -/

theorem wrapInt_inRange (x : Int) : InIntRange (wrapInt x) := by
  unfold InIntRange wrapInt
  constructor <;> omega

theorem wrapInt_of_inRange {x : Int} (h : InIntRange x) : wrapInt x = x := by
  unfold InIntRange at h
  unfold wrapInt
  omega

theorem wrapInt_add_left (a b : Int) : wrapInt (wrapInt a + b) = wrapInt (a + b) := by
  unfold wrapInt
  omega

theorem addInt_wrapInt (a b : Int) : addInt (wrapInt a) b = wrapInt (a + b) :=
  wrapInt_add_left a b

theorem wrapInt_zero : wrapInt 0 = 0 := by
  decide

/-! ## The additive structure of `calculatePoints` -/

theorem itemStep_wrapInt (arch : Arch) (a : Int) (item : Item) :
    itemStep arch (wrapInt a) item = wrapInt (a + itemPoints arch item) := by
  unfold itemStep itemPoints
  split
  · exact addInt_wrapInt _ _
  · simp

theorem foldl_itemStep (arch : Arch) (items : List Item) (a : Int) :
    items.foldl (itemStep arch) (wrapInt a) = wrapInt (a + (items.map (itemPoints arch)).sum) := by
  induction items generalizing a with
  | nil => simp
  | cons item rest ih =>
    rw [List.foldl_cons, itemStep_wrapInt, ih, List.map_cons, List.sum_cons, add_assoc]

theorem ite_addInt_wrapInt (c : Prop) [Decidable c] (a k : Int) :
    (if c then addInt (wrapInt a) k else wrapInt a) = wrapInt (a + if c then k else 0) := by
  split
  · exact addInt_wrapInt _ _
  · simp

theorem calculatePoints_eq_wrapInt (arch : Arch) (receipt : Receipt) :
    calculatePoints arch receipt = wrapInt (ruleSum arch receipt) := by
  unfold calculatePoints ruleSum rule1 rule2 rule3 rule4 rule5 rule6 rule7 rule8
  simp only []
  rw [← wrapInt_zero, addInt_wrapInt, ite_addInt_wrapInt, ite_addInt_wrapInt, addInt_wrapInt,
    foldl_itemStep, ite_addInt_wrapInt, ite_addInt_wrapInt, ite_addInt_wrapInt, zero_add]
  simp only [wrapInt_zero]

/-! ## The receipt store -/

theorem getPoints_processReceipt (arch : Arch) (s : Store) (id : String) (receipt : Receipt) :
    getPoints (processReceipt arch s id (Except.ok receipt)).1 id
      = Response.ok ⟨calculatePoints arch receipt⟩ := by
  simp [getPoints, processReceipt, mapSet]

theorem receipts_foldl_step (arch : Arch) (reqs : List Request) (s : Store) (id : String) :
    ((reqs.foldl (step arch) s).receipts id).isSome
      = ((s.receipts id).isSome || decide (id ∈ returnedIds reqs)) := by
  induction reqs generalizing s with
  | nil => simp [returnedIds]
  | cons req rest ih =>
    rw [List.foldl_cons, ih]
    cases req with
    | points k => simp [step, returnedIds]
    | process k body =>
      cases body with
      | error err => simp [step, processReceipt, returnedIds]
      | ok receipt =>
        by_cases hk : id = k
        · simp [step, processReceipt, returnedIds, mapSet, hk]
        · simp [step, processReceipt, returnedIds, mapSet, hk]

theorem receipts_run (arch : Arch) (reqs : List Request) (id : String) :
    ((run arch reqs).receipts id).isSome = decide (id ∈ returnedIds reqs) := by
  unfold run
  rw [receipts_foldl_step]
  simp [Store.empty]

/-- C2: for every store, identifier and receipt, `processReceipt` answers with the identifier,
and `getPoints` on that identifier in the resulting store succeeds with exactly
`calculatePoints` of the receipt. -/
theorem c2_getPoints_after_processReceipt (arch : Arch) (s : Store) (id : String)
    (receipt : Receipt) :
    (processReceipt arch s id (Except.ok receipt)).2 = Response.ok ⟨id⟩ ∧
    getPoints (processReceipt arch s id (Except.ok receipt)).1 id
      = Response.ok ⟨calculatePoints arch receipt⟩ :=
  ⟨rfl, getPoints_processReceipt arch s id receipt⟩

/-- C3: in the store reached from the empty store by any sequence of requests, `getPoints`
answers 404 "Receipt not found" exactly for the identifiers that no submission returned, and
answers with a points value exactly for the identifiers that some submission returned. -/
theorem c3_getPoints_notFound_iff (arch : Arch) (reqs : List Request) (id : String) :
    (getPoints (run arch reqs) id = Response.error 404 "Receipt not found"
      ↔ id ∉ returnedIds reqs) ∧
    ((∃ p, getPoints (run arch reqs) id = Response.ok p) ↔ id ∈ returnedIds reqs) := by
  have h := receipts_run arch reqs id
  unfold getPoints
  cases hr : (run arch reqs).receipts id with
  | none =>
    rw [hr] at h
    have hn : id ∉ returnedIds reqs := by simpa using h.symm
    simp [hn]
  | some receipt =>
    rw [hr] at h
    have hm : id ∈ returnedIds reqs := by simpa using h.symm
    simp [hm]

/-! ## C1: the score and the sum of the rule contributions -/

/-- C1, as stated, fails: for the receipt with two items priced `4e19`, each item adds
`8000000000000000000`, the plain sum of the eight contributions is `16000000000000000005`,
and `calculatePoints` returns the wrapped value `-2446744073709551611`, on both ports. -/
theorem c1_sum_wraps_around :
    ruleSum amd64 hugePricesReceipt = 16000000000000000005 ∧
    calculatePoints amd64 hugePricesReceipt = -2446744073709551611 ∧
    ruleSum arm64 hugePricesReceipt = 16000000000000000005 ∧
    calculatePoints arm64 hugePricesReceipt = -2446744073709551611 := by
  decide!

/-- C1, amended: `calculatePoints` returns the sum of the eight rule contributions reduced to
Go's 64-bit `int` (nothing else is added or subtracted), and exactly that sum whenever the sum
lies in the `int` range.  The contributions are: the number of alphanumeric characters of the
retailer; 50 or 0; 25 or 0; 5 for every two items; the sum over the items of what each adds
under Rule 5; 6 or 0; 10 or 0; 5 or 0. -/
theorem c1_calculatePoints_sum (arch : Arch) (receipt : Receipt) :
    calculatePoints arch receipt = wrapInt (ruleSum arch receipt) ∧
    (InIntRange (ruleSum arch receipt) → calculatePoints arch receipt = ruleSum arch receipt) ∧
    ruleSum arch receipt
      = ((receipt.Retailer.data.filter isAlnum).length : Int)
        + rule2 arch receipt + rule3 receipt + 5 * ((receipt.Items.length : Int) / 2)
        + (receipt.Items.map (itemPoints arch)).sum
        + rule6 receipt + rule7 receipt + rule8 receipt ∧
    (rule2 arch receipt = 50 ∨ rule2 arch receipt = 0) ∧
    (rule3 receipt = 25 ∨ rule3 receipt = 0) ∧
    (rule6 receipt = 6 ∨ rule6 receipt = 0) ∧
    (rule7 receipt = 10 ∨ rule7 receipt = 0) ∧
    (rule8 receipt = 5 ∨ rule8 receipt = 0) := by
  refine ⟨calculatePoints_eq_wrapInt arch receipt, fun h => ?_, ?_, ?_, ?_, ?_, ?_, ?_⟩
  · rw [calculatePoints_eq_wrapInt, wrapInt_of_inRange h]
  · unfold ruleSum rule1 rule4 rule5 FindAllString
    ring
  · unfold rule2; simp only []; split <;> simp
  · unfold rule3; simp only []; split <;> simp
  · unfold rule6; split <;> simp
  · unfold rule7; simp only []; split <;> simp
  · unfold rule8; split <;> simp

/-- Witness of C1 amended, at the `Target` receipt: the sum is 33 and so is the score. -/
theorem c1_calculatePoints_sum_witness :
    InIntRange (ruleSum amd64 targetReceipt) ∧
    calculatePoints amd64 targetReceipt = ruleSum amd64 targetReceipt ∧
    ruleSum amd64 targetReceipt = 33 :=
  ⟨by decide!, (c1_calculatePoints_sum amd64 targetReceipt).2.1 (by decide!), by decide!⟩

/-! ## C5: a malformed total -/

theorem atof64_errSyntax {s : List Char} (h : (atof64 s).2.2 = some NumErr.errSyntax) :
    (atof64 s).1 = F64.fin 0 := by
  unfold atof64 at h ⊢
  split
  · rename_i v n hs
    rw [hs] at h
    simp at h
  · rename_i hs
    rw [hs] at h
    split
    · rfl
    · rename_i l hl
      rw [hl] at h
      simp only [] at h
      split at h <;> simp at h

theorem ParseFloat_errSyntax {s : String} (h : (ParseFloat s).2 = some NumErr.errSyntax) :
    (ParseFloat s).1 = F64.fin 0 := by
  unfold ParseFloat at h ⊢
  simp only [] at h ⊢
  split
  · rfl
  · rename_i hc
    rw [if_neg hc] at h
    exact atof64_errSyntax h

theorem ofRat_zero : F64.ofRat 0 = F64.fin 0 := by
  simp [F64.ofRat]

theorem truncQ_zero : truncQ 0 = 0 := by
  simp [truncQ]

theorem f2i_zero (arch : Arch) : f2i arch (F64.fin 0) = 0 := by
  have h : InIntRange 0 := by decide
  simp [f2i, truncQ_zero, h]

/-- C5, as stated, fails: the total `abc` is a syntax error for `ParseFloat`, which leaves
`total = 0`; Rule 2 then contributes 50 and Rule 3 contributes 25 (only Rule 8 contributes 0),
and the receipt scores 81 with the 6 points of Rule 6. -/
theorem c5_malformed_total_scores :
    (ParseFloat malformedTotalReceipt.Total).2 = some NumErr.errSyntax ∧
    rule2 amd64 malformedTotalReceipt = 50 ∧ rule2 arm64 malformedTotalReceipt = 50 ∧
    rule3 malformedTotalReceipt = 25 ∧ rule8 malformedTotalReceipt = 0 ∧
    calculatePoints amd64 malformedTotalReceipt = 81 := by
  decide!

/-- C5, amended: when the total is malformed (`ParseFloat` reports a syntax error) the total
is taken as 0, so Rule 2 contributes 50, Rule 3 contributes 25 and Rule 8 contributes 0;
`calculatePoints` still returns a value. -/
theorem c5_malformed_total (arch : Arch) (receipt : Receipt)
    (h : (ParseFloat receipt.Total).2 = some NumErr.errSyntax) :
    (ParseFloat receipt.Total).1 = F64.fin 0 ∧
    rule2 arch receipt = 50 ∧ rule3 receipt = 25 ∧ rule8 receipt = 0 ∧
    calculatePoints arch receipt
      = wrapInt (rule1 receipt + 50 + 25 + rule4 receipt + rule5 arch receipt
          + rule6 receipt + rule7 receipt + 0) := by
  have h0 := ParseFloat_errSyntax h
  have h2 : rule2 arch receipt = 50 := by
    simp [rule2, h0, f2i_zero, i2f, ofRat_zero, F64.eq]
  have h3 : rule3 receipt = 25 := by
    simp [rule3, h0, F64.mul, ofRat_zero, Mod, F64.eq]
  have h8 : rule8 receipt = 0 := by
    simp [rule8, h0, F64.gt]
  refine ⟨h0, h2, h3, h8, ?_⟩
  rw [calculatePoints_eq_wrapInt, ruleSum, h2, h3, h8]

/-- Witness of C5 amended, at the receipt with total `abc`. -/
theorem c5_malformed_total_witness :
    (ParseFloat malformedTotalReceipt.Total).2 = some NumErr.errSyntax ∧
    rule2 amd64 malformedTotalReceipt = 50 ∧ rule3 malformedTotalReceipt = 25 ∧
    rule8 malformedTotalReceipt = 0 :=
  have h : (ParseFloat malformedTotalReceipt.Total).2 = some NumErr.errSyntax := by decide!
  have w := c5_malformed_total amd64 malformedTotalReceipt h
  ⟨h, w.2.1, w.2.2.1, w.2.2.2.1⟩

/-! ## C6: an unparseable date -/

/-- C6, as stated, fails: the empty date, free text and the impossible date `2022-02-30` do not
parse, the date is then the zero time, whose day is 1, and Rule 6 contributes 6. -/
theorem c6_unparseable_date_scores :
    parseDate "".data = none ∧ parseDate "yesterday".data = none ∧
    parseDate "2022-02-30".data = none ∧
    (timeOrZero (parseDate "2022-02-30".data)).Day = 1 ∧
    rule6 ⟨"", "", "", [], ""⟩ = 6 ∧ rule6 ⟨"", "yesterday", "", [], ""⟩ = 6 ∧
    rule6 ⟨"", "2022-02-30", "", [], ""⟩ = 6 := by
  decide

/-- C6, amended: when the purchase date does not parse as a `2006-01-02` date, the date used
is the zero time, whose day is 1 (odd), and Rule 6 contributes 6. -/
theorem c6_unparseable_date (receipt : Receipt)
    (h : parseDate receipt.PurchaseDate.data = none) :
    (timeOrZero (parseDate receipt.PurchaseDate.data)).Day = 1 ∧ rule6 receipt = 6 := by
  simp [rule6, h, timeOrZero, Time.zero, Time.Day]

/-- Witness of C6 amended, at the impossible date `2022-02-30`. -/
theorem c6_unparseable_date_witness :
    parseDate "2022-02-30".data = none ∧ rule6 ⟨"", "2022-02-30", "", [], ""⟩ = 6 :=
  ⟨by decide, (c6_unparseable_date ⟨"", "2022-02-30", "", [], ""⟩ (by decide)).2⟩

/-! ## C10: the afternoon window -/

theorem isDigit_iff (c : Char) : c.isDigit = true ↔ 48 ≤ c.toNat ∧ c.toNat ≤ 57 := by
  simp only [Char.isDigit, Char.toNat, ge_iff_le, Bool.and_eq_true, decide_eq_true_eq,
    UInt32.le_def, BitVec.le_def]
  rfl

theorem char_eq_of_toNat {c d : Char} (h : c.toNat = d.toNat) : c = d := by
  rw [← Char.ofNat_toNat c, ← Char.ofNat_toNat d, h]

theorem getnum_fixed {s : List Char} {n : Nat} {rest : List Char} :
    getnum s true = some (n, rest) ↔
      ∃ c0 c1, s = c0 :: c1 :: rest ∧ c0.isDigit = true ∧ c1.isDigit = true ∧
        n = digitVal c0 * 10 + digitVal c1 := by
  constructor
  · intro h
    match s, h with
    | c0 :: c1 :: tl, h =>
      unfold getnum at h
      by_cases h0 : c0.isDigit = true <;> by_cases h1 : c1.isDigit = true <;> simp [h0, h1] at h
      exact ⟨c0, c1, by rw [h.2], h0, h1, h.1.symm⟩
    | [c0], h =>
      unfold getnum at h
      by_cases h0 : c0.isDigit = true <;> simp [h0] at h
    | [], h => simp [getnum] at h
  · rintro ⟨c0, c1, rfl, h0, h1, rfl⟩
    simp [getnum, h0, h1]

theorem getnum_free {s : List Char} {n : Nat} {rest : List Char} :
    getnum s false = some (n, rest) ↔
      (∃ c0 c1, s = c0 :: c1 :: rest ∧ c0.isDigit = true ∧ c1.isDigit = true ∧
        n = digitVal c0 * 10 + digitVal c1) ∨
      (∃ c0, s = c0 :: rest ∧ c0.isDigit = true ∧ (∀ c1 tl, rest = c1 :: tl → c1.isDigit = false) ∧
        n = digitVal c0) := by
  constructor
  · intro h
    match s, h with
    | c0 :: c1 :: tl, h =>
      unfold getnum at h
      by_cases h0 : c0.isDigit = true <;> by_cases h1 : c1.isDigit = true <;> simp [h0, h1] at h
      · exact Or.inl ⟨c0, c1, by rw [h.2], h0, h1, h.1.symm⟩
      · refine Or.inr ⟨c0, by rw [← h.2], h0, ?_, h.1.symm⟩
        intro d tl' hr
        rw [← h.2] at hr
        simp at hr
        rw [← hr.1]; simpa using h1
    | [c0], h =>
      unfold getnum at h
      by_cases h0 : c0.isDigit = true <;> simp [h0] at h
      refine Or.inr ⟨c0, by rw [h.2], h0, ?_, h.1.symm⟩
      intro d tl' hr
      rw [h.2] at hr
      simp at hr
    | [], h => simp [getnum] at h
  · rintro (⟨c0, c1, rfl, h0, h1, rfl⟩ | ⟨c0, rfl, h0, hr, rfl⟩)
    · simp [getnum, h0, h1]
    · cases rest with
      | nil => simp [getnum, h0]
      | cons c1 tl =>
        have := hr c1 tl rfl
        simp [getnum, h0, this]

theorem digitVal_lt {c : Char} (h : c.isDigit = true) : digitVal c < 10 := by
  rw [isDigit_iff] at h
  unfold digitVal
  omega

theorem parseClock_eq_some {s : List Char} {t : Time} :
    parseClock s = some t ↔
      ∃ hour minute v1 v3, getnum s false = some (hour, ':' :: v1) ∧ hour < 24 ∧
        getnum v1 true = some (minute, v3) ∧ minute < 60 ∧ v3 = [] ∧ t = ⟨0, 1, 1, hour, minute⟩ := by
  unfold parseClock
  constructor
  · intro h
    split at h
    · simp at h
    · rename_i hour v1 hg
      split at h
      · simp at h
      · split at h
        · rename_i sep v2
          split at h
          · simp at h
          · rename_i hsep
            split at h
            · simp at h
            · rename_i minute v3 hm
              split at h
              · simp at h
              · split at h
                · simp at h
                · rename_i h60 hv3 
                  simp at hsep hv3
                  subst hsep hv3
                  exact ⟨hour, minute, v2, [], hg, by omega, hm, by omega, rfl, by simpa using h.symm⟩
        · simp at h
  · rintro ⟨hour, minute, v1, v3, hg, hh, hm, hmm, rfl, rfl⟩
    simp [hg, hm, Nat.not_le.mpr hh, Nat.not_le.mpr hmm]

theorem rule7_eq_ten_iff (receipt : Receipt) :
    rule7 receipt = 10 ↔
      ∃ t, parseClock receipt.PurchaseTime.data = some t ∧ 14 ≤ t.Hour ∧ t.Hour < 16 := by
  unfold rule7
  cases hp : parseClock receipt.PurchaseTime.data with
  | none => simp [timeOrZero, Time.zero, Time.Hour]
  | some t =>
    simp only [timeOrZero, Option.getD_some, ge_iff_le, Option.some.injEq, exists_eq_left']
    constructor
    · intro h
      by_contra hc
      rw [if_neg hc] at h
      simp at h
    · intro h
      rw [if_pos h]

theorem rule7_values (receipt : Receipt) : rule7 receipt = 10 ∨ rule7 receipt = 0 := by
  unfold rule7
  simp only []
  split
  · exact Or.inl rfl
  · exact Or.inr rfl

theorem clock_window_text {s : List Char} :
    (∃ t, parseClock s = some t ∧ 14 ≤ t.Hour ∧ t.Hour < 16) ↔
      ∃ h m1 m0 : Char, s = ['1', h, ':', m1, m0] ∧ (h = '4' ∨ h = '5') ∧
        (48 ≤ m1.toNat ∧ m1.toNat ≤ 53) ∧ m0.isDigit = true := by
  constructor
  · rintro ⟨t, hp, h14, h16⟩
    rw [parseClock_eq_some] at hp
    obtain ⟨hour, minute, v1, v3, hg, -, hm, hmin, rfl, rfl⟩ := hp
    simp only [Time.Hour] at h14 h16
    rw [getnum_fixed] at hm
    obtain ⟨m1, m0, rfl, hm1, hm0, rfl⟩ := hm
    rw [getnum_free] at hg
    rcases hg with ⟨c0, c1, rfl, h0, h1, rfl⟩ | ⟨c0, -, h0, -, rfl⟩
    · have d0 := (isDigit_iff c0).1 h0
      have d1 := (isDigit_iff c1).1 h1
      have e1 := (isDigit_iff m1).1 hm1
      have e0 := (isDigit_iff m0).1 hm0
      unfold digitVal at h14 h16 hmin
      have hc0 : c0 = '1' := char_eq_of_toNat (by show c0.toNat = 49; omega)
      subst hc0
      refine ⟨c1, m1, m0, rfl, ?_, ⟨e1.1, by omega⟩, hm0⟩
      have hc1 : c1.toNat = 52 ∨ c1.toNat = 53 := by
        have : ('1' : Char).toNat = 49 := rfl
        omega
      rcases hc1 with hc1 | hc1
      · exact Or.inl (char_eq_of_toNat hc1)
      · exact Or.inr (char_eq_of_toNat hc1)
    · have := digitVal_lt h0
      omega
  · rintro ⟨h, m1, m0, rfl, hh, hm1, hm0⟩
    have e0 := (isDigit_iff m0).1 hm0
    have hm1d : m1.isDigit = true := (isDigit_iff m1).2 ⟨hm1.1, by omega⟩
    have hmin : digitVal m1 * 10 + digitVal m0 < 60 := by unfold digitVal; omega
    rcases hh with rfl | rfl
    · refine ⟨⟨0, 1, 1, 14, digitVal m1 * 10 + digitVal m0⟩, ?_, by simp [Time.Hour], by simp [Time.Hour]⟩
      rw [parseClock_eq_some]
      exact ⟨14, _, [m1, m0], [], by rfl, by decide, getnum_fixed.2 ⟨m1, m0, rfl, hm1d, hm0, rfl⟩,
        hmin, rfl, rfl⟩
    · refine ⟨⟨0, 1, 1, 15, digitVal m1 * 10 + digitVal m0⟩, ?_, by simp [Time.Hour], by simp [Time.Hour]⟩
      rw [parseClock_eq_some]
      exact ⟨15, _, [m1, m0], [], by rfl, by decide, getnum_fixed.2 ⟨m1, m0, rfl, hm1d, hm0, rfl⟩,
        hmin, rfl, rfl⟩

/-- C10: Rule 7 contributes 10 or 0; it contributes 10 exactly when the purchase time parses
under the layout `15:04` with an hour `h`, `14 <= h < 16`, that is, exactly when the text is
`14:MM` or `15:MM` with `MM` from `00` to `59`.  `14:00` earns the 10 points, `16:00` earns
nothing, and a time that does not parse has hour 0 and earns nothing. -/
theorem c10_afternoon_window (receipt : Receipt) :
    (rule7 receipt = 10 ∨ rule7 receipt = 0) ∧
    (rule7 receipt = 10 ↔
      ∃ t, parseClock receipt.PurchaseTime.data = some t ∧ 14 ≤ t.Hour ∧ t.Hour < 16) ∧
    (rule7 receipt = 10 ↔
      ∃ h m1 m0 : Char, receipt.PurchaseTime.data = ['1', h, ':', m1, m0] ∧ (h = '4' ∨ h = '5') ∧
        (48 ≤ m1.toNat ∧ m1.toNat ≤ 53) ∧ m0.isDigit = true) ∧
    (receipt.PurchaseTime = "14:00" → rule7 receipt = 10) ∧
    (receipt.PurchaseTime = "16:00" → rule7 receipt = 0) ∧
    (parseClock receipt.PurchaseTime.data = none →
      (timeOrZero (parseClock receipt.PurchaseTime.data)).Hour = 0 ∧ rule7 receipt = 0) := by
  refine ⟨rule7_values receipt, rule7_eq_ten_iff receipt,
    (rule7_eq_ten_iff receipt).trans clock_window_text, ?_, ?_, ?_⟩
  · intro h
    unfold rule7
    rw [h]
    decide
  · intro h
    unfold rule7
    rw [h]
    decide
  · intro h
    unfold rule7
    rw [h]
    decide

/-- Witness of C10, at the purchase times `14:00`, `16:00` and the unparseable `2pm`. -/
theorem c10_afternoon_window_witness :
    rule7 ⟨"", "", "14:00", [], ""⟩ = 10 ∧ rule7 ⟨"", "", "16:00", [], ""⟩ = 0 ∧
    parseClock "2pm".data = none ∧ rule7 ⟨"", "", "2pm", [], ""⟩ = 0 :=
  ⟨(c10_afternoon_window ⟨"", "", "14:00", [], ""⟩).2.2.2.1 rfl,
   (c10_afternoon_window ⟨"", "", "16:00", [], ""⟩).2.2.2.2.1 rfl,
   by decide,
   ((c10_afternoon_window ⟨"", "", "2pm", [], ""⟩).2.2.2.2.2 (by decide)).2⟩

/-! ## float64 rounding -/

theorem pow2_eq_zpow (e : Int) : pow2 e = (2 : ℚ) ^ e := by
  unfold pow2
  split
  · rename_i h
    obtain ⟨n, rfl⟩ := Int.eq_ofNat_of_zero_le h
    simp
  · rename_i h
    obtain ⟨n, hn⟩ := Int.eq_ofNat_of_zero_le (show 0 ≤ -e by omega)
    have he : e = -(n : Int) := by omega
    subst he
    simp

theorem pow2_pos (e : Int) : 0 < pow2 e := by
  rw [pow2_eq_zpow]; exact zpow_pos (by norm_num) e

theorem pow2_add (a b : Int) : pow2 (a + b) = pow2 a * pow2 b := by
  simp only [pow2_eq_zpow]; exact zpow_add₀ (by norm_num) a b

theorem pow2_le_pow2 {a b : Int} (h : a ≤ b) : pow2 a ≤ pow2 b := by
  simp only [pow2_eq_zpow]; exact zpow_le_zpow_right₀ (by norm_num) h

theorem pow2_lt_pow2 {a b : Int} (h : a < b) : pow2 a < pow2 b := by
  simp only [pow2_eq_zpow]; exact (zpow_lt_zpow_iff_right₀ (by norm_num)).2 h

theorem pow2_lt_pow2_iff {a b : Int} : pow2 a < pow2 b ↔ a < b := by
  simp only [pow2_eq_zpow]; exact zpow_lt_zpow_iff_right₀ (by norm_num)

theorem pow2_natCast (n : Nat) : pow2 (n : Int) = ((2 ^ n : ℕ) : ℚ) := by
  simp [pow2]

theorem pow2_zero : pow2 0 = 1 := by
  simp [pow2]

theorem pow2_sub (a b : Int) : pow2 (a - b) = pow2 a / pow2 b := by
  have h := pow2_add (a - b) b
  rw [sub_add_cancel] at h
  rw [h, mul_div_assoc, div_self (pow2_pos b).ne', mul_one]

theorem log2Fuel_spec (fuel n : Nat) (hf : n ≤ fuel) (hn : 1 ≤ n) :
    2 ^ log2Fuel fuel n ≤ n ∧ n < 2 ^ (log2Fuel fuel n + 1) := by
  induction fuel generalizing n with
  | zero => omega
  | succ k ih =>
    unfold log2Fuel
    split
    · rename_i h2
      simp
      omega
    · rename_i h2
      have := ih (n / 2) (by omega) (by omega)
      rw [pow_succ, pow_succ]
      constructor <;> omega

theorem log2n_spec (n : Nat) (hn : 1 ≤ n) : 2 ^ log2n n ≤ n ∧ n < 2 ^ (log2n n + 1) :=
  log2Fuel_spec n n le_rfl hn

theorem ilog2_spec (a : ℚ) (ha : 0 < a) : pow2 (ilog2 a) ≤ a ∧ a < pow2 (ilog2 a + 1) := by
  have hp : 1 ≤ a.num.natAbs := by
    have : 0 < a.num := Rat.num_pos.2 ha
    omega
  have hq : 1 ≤ a.den := a.den_pos
  obtain ⟨p1, p2⟩ := log2n_spec _ hp
  obtain ⟨q1, q2⟩ := log2n_spec _ hq
  have hnum : (a.num.natAbs : ℚ) = a.num := by
    have : 0 < a.num := Rat.num_pos.2 ha
    rw [← Int.cast_natCast, Int.natAbs_of_nonneg this.le]
  have ha' : a = (a.num.natAbs : ℚ) / (a.den : ℚ) := by
    rw [hnum]; exact (Rat.num_div_den a).symm
  have hqpos : (0 : ℚ) < a.den := by exact_mod_cast hq
  -- bounds in ℚ
  have P1 : pow2 (log2n a.num.natAbs : Int) ≤ (a.num.natAbs : ℚ) := by
    rw [pow2_natCast]; exact_mod_cast p1
  have P2 : (a.num.natAbs : ℚ) < pow2 ((log2n a.num.natAbs : Int) + 1) := by
    have : ((log2n a.num.natAbs : Int) + 1) = ((log2n a.num.natAbs + 1 : ℕ) : Int) := by simp
    rw [this, pow2_natCast]; exact_mod_cast p2
  have Q1 : pow2 (log2n a.den : Int) ≤ (a.den : ℚ) := by
    rw [pow2_natCast]; exact_mod_cast q1
  have Q2 : (a.den : ℚ) < pow2 ((log2n a.den : Int) + 1) := by
    have : ((log2n a.den : Int) + 1) = ((log2n a.den + 1 : ℕ) : Int) := by simp
    rw [this, pow2_natCast]; exact_mod_cast q2
  set lp : Int := (log2n a.num.natAbs : Int) with hlp
  set lq : Int := (log2n a.den : Int) with hlq
  have up : a < pow2 (lp - lq + 1) := by
    rw [show lp - lq + 1 = (lp + 1) - lq by ring, pow2_sub, ha']
    calc (a.num.natAbs : ℚ) / a.den < pow2 (lp + 1) / a.den := by
          exact div_lt_div_of_pos_right P2 hqpos
      _ ≤ pow2 (lp + 1) / pow2 lq := by
          exact div_le_div_of_nonneg_left (pow2_pos _).le (pow2_pos _) Q1
  have lo : pow2 (lp - lq - 1) < a := by
    rw [show lp - lq - 1 = lp - (lq + 1) by ring, pow2_sub]
    conv_rhs => rw [ha']
    calc pow2 lp / pow2 (lq + 1) < pow2 lp / a.den := by
          exact div_lt_div_of_pos_left (pow2_pos _) hqpos Q2
      _ ≤ (a.num.natAbs : ℚ) / a.den := by
          exact div_le_div_of_nonneg_right P1 hqpos.le
  unfold ilog2
  simp only []
  rw [← hlp, ← hlq]
  split
  · rename_i h
    exact ⟨h, up⟩
  · rename_i h
    rw [sub_add_cancel]
    exact ⟨lo.le, lt_of_not_le h⟩

/-! rounding to an integer -/

theorem roundHalfEven_cases (s : ℚ) :
    roundHalfEven s = ⌊s⌋ ∨ roundHalfEven s = ⌊s⌋ + 1 := by
  unfold roundHalfEven
  simp only []
  split
  · exact Or.inl rfl
  · split
    · exact Or.inr rfl
    · split
      · exact Or.inl rfl
      · exact Or.inr rfl

theorem roundHalfEven_intCast (k : Int) : roundHalfEven (k : ℚ) = k := by
  unfold roundHalfEven
  simp

theorem roundHalfEven_le {s : ℚ} {k : Int} (h : s ≤ k) : roundHalfEven s ≤ k := by
  rcases lt_or_eq_of_le h with h | h
  · have hf : ⌊s⌋ < k := Int.floor_lt.2 h
    rcases roundHalfEven_cases s with h1 | h1 <;> omega
  · rw [h, roundHalfEven_intCast]

theorem le_roundHalfEven {s : ℚ} {k : Int} (h : (k : ℚ) ≤ s) : k ≤ roundHalfEven s := by
  have hf : k ≤ ⌊s⌋ := Int.le_floor.2 h
  rcases roundHalfEven_cases s with h1 | h1 <;> omega

theorem abs_roundHalfEven_sub (s : ℚ) : |(roundHalfEven s : ℚ) - s| ≤ 1 / 2 := by
  have h1 := Int.floor_le s
  have h2 := Int.lt_floor_add_one s
  unfold roundHalfEven
  simp only []
  rw [abs_le]
  split
  · rename_i h; constructor <;> linarith
  · split
    · rename_i h h'; push_cast; constructor <;> linarith
    · rename_i h h'
      have : s - ⌊s⌋ = 1 / 2 := le_antisymm (not_lt.1 h') (not_lt.1 h)
      split
      · constructor <;> linarith
      · push_cast; constructor <;> linarith

/-! rounding to float64 -/

theorem roundMag_eq (a : ℚ) :
    roundMag a = (roundHalfEven (a / pow2 (ulpExp a)) : ℚ) * pow2 (ulpExp a) := rfl

theorem ulpExp_ge (a : ℚ) : -1074 ≤ ulpExp a := by
  unfold ulpExp; omega

theorem lt_pow2_ulpExp {a : ℚ} (ha : 0 < a) : a < pow2 (ulpExp a + 53) := by
  have h := (ilog2_spec a ha).2
  refine lt_of_lt_of_le h (pow2_le_pow2 ?_)
  unfold ulpExp; omega

theorem ulpExp_le_of_le {a : ℚ} (ha : 0 < a) {b : ℚ} (hab : a ≤ b) {M : Nat} {E : Int}
    (hM : M < 2 ^ 53) (hE : -1074 ≤ E) (hb : b = M * pow2 E) : ulpExp a ≤ E := by
  by_cases hl : -1022 ≤ ilog2 a
  · have h1 := (ilog2_spec a ha).1
    have h2 : b < pow2 (53 + E) := by
      rw [hb, pow2_add]
      have : (M : ℚ) < pow2 53 := by
        rw [show (53 : Int) = ((53 : ℕ) : Int) by rfl, pow2_natCast]; exact_mod_cast hM
      exact mul_lt_mul_of_pos_right this (pow2_pos E)
    have h3 : pow2 (ilog2 a) < pow2 (53 + E) := lt_of_le_of_lt (h1.trans hab) h2
    rw [pow2_lt_pow2_iff] at h3
    unfold ulpExp; omega
  · unfold ulpExp; omega

theorem div_pow2_eq_natCast {M : Nat} {E e : Int} (h : e ≤ E) :
    (M : ℚ) * pow2 E / pow2 e = ((M * 2 ^ (E - e).toNat : ℕ) : ℚ) := by
  have : E = (E - e).toNat + e := by omega
  conv_lhs => rw [this, pow2_add, pow2_natCast]
  rw [← mul_assoc, mul_div_assoc, div_self (pow2_pos e).ne', mul_one]
  push_cast; ring

theorem roundMag_exact {a : ℚ} (ha : 0 < a) {M : Nat} {E : Int}
    (hM : M < 2 ^ 53) (hE : -1074 ≤ E) (hb : a = M * pow2 E) : roundMag a = a := by
  have he := ulpExp_le_of_le ha le_rfl hM hE hb
  have hdiv : a / pow2 (ulpExp a) = (((M * 2 ^ (E - ulpExp a).toNat : ℕ) : Int) : ℚ) := by
    rw [Int.cast_natCast, ← div_pow2_eq_natCast he, ← hb]
  rw [roundMag_eq, hdiv, roundHalfEven_intCast, ← hdiv]
  field_simp [(pow2_pos (ulpExp a)).ne']

theorem roundMag_le {a : ℚ} (ha : 0 < a) {b : ℚ} (hab : a ≤ b) {M : Nat} {E : Int}
    (hM : M < 2 ^ 53) (hE : -1074 ≤ E) (hb : b = M * pow2 E) : roundMag a ≤ b := by
  have he := ulpExp_le_of_le ha hab hM hE hb
  have hdiv : a / pow2 (ulpExp a) ≤ ((M * 2 ^ (E - ulpExp a).toNat : ℕ) : Int) := by
    rw [Int.cast_natCast, ← div_pow2_eq_natCast he, ← hb]
    exact div_le_div_of_nonneg_right hab (pow2_pos _).le
  have := roundHalfEven_le hdiv
  rw [roundMag_eq]
  calc (roundHalfEven (a / pow2 (ulpExp a)) : ℚ) * pow2 (ulpExp a)
      ≤ (((M * 2 ^ (E - ulpExp a).toNat : ℕ) : Int) : ℚ) * pow2 (ulpExp a) := by
        exact mul_le_mul_of_nonneg_right (by exact_mod_cast this) (pow2_pos _).le
    _ = b := by
        rw [Int.cast_natCast, ← div_pow2_eq_natCast he, ← hb]
        field_simp [(pow2_pos (ulpExp a)).ne']

theorem roundMag_nonneg {a : ℚ} (ha : 0 ≤ a) : 0 ≤ roundMag a := by
  rw [roundMag_eq]
  have h : ((0 : Int) : ℚ) ≤ a / pow2 (ulpExp a) := by
    simpa using div_nonneg ha (pow2_pos _).le
  have := le_roundHalfEven h
  exact mul_nonneg (by exact_mod_cast this) (pow2_pos _).le

theorem le_roundMag {a : ℚ} (ha : 0 < a) {b : ℚ} (hba : b ≤ a) {M : Nat} {E : Int}
    (hM : M < 2 ^ 53) (hE : -1074 ≤ E) (hb : b = M * pow2 E) : b ≤ roundMag a := by
  by_cases he : ulpExp a ≤ E
  · have hdiv : ((((M * 2 ^ (E - ulpExp a).toNat : ℕ) : Int) : ℚ)) ≤ a / pow2 (ulpExp a) := by
      rw [Int.cast_natCast, ← div_pow2_eq_natCast he, ← hb]
      exact div_le_div_of_nonneg_right hba (pow2_pos _).le
    have := le_roundHalfEven hdiv
    rw [roundMag_eq]
    calc b = (((M * 2 ^ (E - ulpExp a).toNat : ℕ) : Int) : ℚ) * pow2 (ulpExp a) := by
          rw [Int.cast_natCast, ← div_pow2_eq_natCast he, ← hb]
          field_simp [(pow2_pos (ulpExp a)).ne']
      _ ≤ (roundHalfEven (a / pow2 (ulpExp a)) : ℚ) * pow2 (ulpExp a) := by
          exact mul_le_mul_of_nonneg_right (by exact_mod_cast this) (pow2_pos _).le
  · -- `b` lies below the binade of `a`
    have hl : -1022 ≤ ilog2 a := by
      unfold ulpExp at he; omega
    have hu : ulpExp a = ilog2 a - 52 := by
      unfold ulpExp; omega
    have hb2 : b ≤ pow2 (ilog2 a) := by
      have : b < pow2 (53 + E) := by
        rw [hb, pow2_add]
        have : (M : ℚ) < pow2 53 := by
          rw [show (53 : Int) = ((53 : ℕ) : Int) by rfl, pow2_natCast]; exact_mod_cast hM
        exact mul_lt_mul_of_pos_right this (pow2_pos E)
      exact this.le.trans (pow2_le_pow2 (by omega))
    have hdiv : (((2 ^ 52 : ℕ) : Int) : ℚ) ≤ a / pow2 (ulpExp a) := by
      rw [le_div_iff₀ (pow2_pos _), Int.cast_natCast,
        ← pow2_natCast, ← pow2_add, hu]
      have := (ilog2_spec a ha).1
      simpa using this
    have := le_roundHalfEven hdiv
    rw [roundMag_eq]
    calc b ≤ pow2 (ilog2 a) := hb2
      _ = (((2 ^ 52 : ℕ) : Int) : ℚ) * pow2 (ulpExp a) := by
          rw [Int.cast_natCast, ← pow2_natCast, ← pow2_add, hu]; simp
      _ ≤ (roundHalfEven (a / pow2 (ulpExp a)) : ℚ) * pow2 (ulpExp a) := by
          exact mul_le_mul_of_nonneg_right (by exact_mod_cast this) (pow2_pos _).le

theorem abs_roundMag_sub (a : ℚ) : |roundMag a - a| ≤ pow2 (ulpExp a) / 2 := by
  have h := abs_roundHalfEven_sub (a / pow2 (ulpExp a))
  have hp := pow2_pos (ulpExp a)
  rw [roundMag_eq]
  have : (roundHalfEven (a / pow2 (ulpExp a)) : ℚ) * pow2 (ulpExp a) - a
      = ((roundHalfEven (a / pow2 (ulpExp a)) : ℚ) - a / pow2 (ulpExp a)) * pow2 (ulpExp a) := by
    field_simp
  rw [this, abs_mul, abs_of_pos hp]
  calc _ ≤ 1 / 2 * pow2 (ulpExp a) := mul_le_mul_of_nonneg_right h hp.le
    _ = pow2 (ulpExp a) / 2 := by ring

theorem roundMag_mantissa {a : ℚ} (ha : 0 < a) :
    ∃ (M : Nat) (E : Int), M < 2 ^ 53 ∧ -1074 ≤ E ∧ roundMag a = M * pow2 E := by
  have hs : a / pow2 (ulpExp a) ≤ (((2 ^ 53 : ℕ) : Int) : ℚ) := by
    rw [div_le_iff₀ (pow2_pos _), Int.cast_natCast, ← pow2_natCast, ← pow2_add]
    have := (lt_pow2_ulpExp ha).le
    rwa [add_comm] at this
  have h1 := roundHalfEven_le hs
  have h0 : (0 : Int) ≤ roundHalfEven (a / pow2 (ulpExp a)) :=
    le_roundHalfEven (by simpa using div_nonneg ha.le (pow2_pos _).le)
  obtain ⟨m, hm⟩ := Int.eq_ofNat_of_zero_le h0
  rw [hm] at h1
  have h1 : m ≤ 2 ^ 53 := by exact_mod_cast h1
  rcases Nat.lt_or_eq_of_le h1 with hlt | heq
  · exact ⟨m, ulpExp a, hlt, ulpExp_ge a, by rw [roundMag_eq, hm]; simp⟩
  · refine ⟨2 ^ 52, ulpExp a + 1, by norm_num, by have := ulpExp_ge a; omega, ?_⟩
    rw [roundMag_eq, hm, heq, pow2_add]
    have : pow2 1 = 2 := by simp [pow2]
    rw [this]
    push_cast
    ring

theorem roundMag_natCast_isInt (n : Nat) : ∃ k : Nat, roundMag (n : ℚ) = k := by
  by_cases he : 0 ≤ ulpExp (n : ℚ)
  · obtain ⟨m, hm⟩ : ∃ m : Nat, roundHalfEven ((n : ℚ) / pow2 (ulpExp (n : ℚ))) = m := by
      have h0 : (0 : Int) ≤ roundHalfEven ((n : ℚ) / pow2 (ulpExp (n : ℚ))) :=
        le_roundHalfEven (by simpa using div_nonneg (Nat.cast_nonneg n) (pow2_pos _).le)
      exact Int.eq_ofNat_of_zero_le h0
    obtain ⟨e, he'⟩ := Int.eq_ofNat_of_zero_le he
    refine ⟨m * 2 ^ e, ?_⟩
    rw [roundMag_eq, hm, he', pow2_natCast]
    push_cast; ring
  · refine ⟨n, ?_⟩
    have hdiv : (n : ℚ) / pow2 (ulpExp (n : ℚ))
        = (((n * 2 ^ (0 - ulpExp (n : ℚ)).toNat : ℕ) : Int) : ℚ) := by
      rw [Int.cast_natCast, ← div_pow2_eq_natCast (by omega : ulpExp (n : ℚ) ≤ 0), pow2_zero, mul_one]
    rw [roundMag_eq, hdiv, roundHalfEven_intCast, ← hdiv]
    field_simp [(pow2_pos (ulpExp (n : ℚ))).ne']

/-! ## float64 values and conversions -/

theorem representable_zero : Representable 0 :=
  ⟨0, 0, by norm_num, by norm_num, by simp, by simpa using pow2_pos 1024⟩

theorem ofRat_cases (x : ℚ) :
    (x = 0 ∧ F64.ofRat x = F64.fin 0) ∨
    (x ≠ 0 ∧ pow2 1024 ≤ roundMag |x| ∧ F64.ofRat x = F64.inf (decide (x < 0))) ∨
    (0 < x ∧ roundMag |x| < pow2 1024 ∧ F64.ofRat x = F64.fin (roundMag |x|)) ∨
    (x < 0 ∧ roundMag |x| < pow2 1024 ∧ F64.ofRat x = F64.fin (-roundMag |x|)) := by
  unfold F64.ofRat F64.overflows
  by_cases h0 : x = 0
  · exact Or.inl ⟨h0, by simp [h0]⟩
  · by_cases ho : pow2 1024 ≤ roundMag |x|
    · exact Or.inr (Or.inl ⟨h0, ho, by simp [h0, ho]⟩)
    · rcases lt_or_gt_of_ne h0 with hn | hp
      · exact Or.inr (Or.inr (Or.inr ⟨hn, lt_of_not_le ho, by simp [h0, ho, hn]⟩))
      · exact Or.inr (Or.inr (Or.inl ⟨hp, lt_of_not_le ho, by simp [h0, ho, not_lt.2 hp.le]⟩))

theorem ofRat_ne_nan (x : ℚ) : F64.ofRat x ≠ F64.nan := by
  rcases ofRat_cases x with h | h | h | h <;> simp [h.2]

theorem ofRat_of_representable {q : ℚ} (h : Representable q) : F64.ofRat q = F64.fin q := by
  obtain ⟨M, E, hM, hE, hq, hlt⟩ := h
  by_cases h0 : q = 0
  · simp [h0, F64.ofRat]
  · have hpos : 0 < |q| := abs_pos.2 h0
    have hex := roundMag_exact hpos hM hE hq
    unfold F64.ofRat F64.overflows
    rw [hex]
    simp only [h0, if_false, decide_eq_true_eq, not_le.2 hlt]
    by_cases hn : q < 0
    · simp [hn, abs_of_neg hn]
    · simp [hn, abs_of_nonneg (not_lt.1 hn)]

theorem representable_of_ofRat {x q : ℚ} (h : F64.ofRat x = F64.fin q) : Representable q := by
  rcases ofRat_cases x with ⟨_, h1⟩ | ⟨_, _, h1⟩ | ⟨hp, hlt, h1⟩ | ⟨hn, hlt, h1⟩
  · rw [h1] at h; cases h; exact representable_zero
  · rw [h1] at h; cases h
  · rw [h1] at h; cases h
    obtain ⟨M, E, hM, hE, hr⟩ := roundMag_mantissa (abs_pos.2 hp.ne')
    have hnn := roundMag_nonneg (abs_nonneg x)
    exact ⟨M, E, hM, hE, by rw [abs_of_nonneg hnn]; exact hr, by rw [abs_of_nonneg hnn]; exact hlt⟩
  · rw [h1] at h; cases h
    obtain ⟨M, E, hM, hE, hr⟩ := roundMag_mantissa (abs_pos.2 hn.ne)
    have hnn := roundMag_nonneg (abs_nonneg x)
    exact ⟨M, E, hM, hE, by rw [abs_neg, abs_of_nonneg hnn]; exact hr,
      by rw [abs_neg, abs_of_nonneg hnn]; exact hlt⟩

theorem special_value {s : List Char} {v : F64} {n : Nat} (h : special s = some (v, n)) :
    v = F64.nan ∨ ∃ b, v = F64.inf b := by
  unfold special at h
  split at h
  · simp at h
  · dsimp only at h
    split_ifs at h <;> simp at h <;> rw [← h.1] <;> simp

theorem atof64_representable {s : List Char} {q : ℚ} (h : (atof64 s).1 = F64.fin q) :
    Representable q := by
  unfold atof64 at h
  split at h
  · rename_i v n hs
    rcases special_value hs with hv | ⟨b, hv⟩ <;> simp [hv] at h
  · split at h
    · simp at h; rw [← h]; exact representable_zero
    · simp only [] at h
      split at h
      · exact representable_of_ofRat h
      · exact representable_of_ofRat h

theorem ParseFloat_representable {s : String} {q : ℚ} (h : (ParseFloat s).1 = F64.fin q) :
    Representable q := by
  unfold ParseFloat at h
  simp only [] at h
  split at h
  · simp at h; rw [← h]; exact representable_zero
  · exact atof64_representable h

/-! conversions between float64 and int -/

theorem truncQ_intCast (z : Int) : truncQ (z : ℚ) = z := by
  unfold truncQ
  split <;> simp

theorem pow2_63 : pow2 63 = 2 ^ 63 := by
  rw [show (63 : Int) = ((63 : ℕ) : Int) by rfl, pow2_natCast]; norm_num

theorem inRange_truncQ {q : ℚ} (h1 : -(2 ^ 63) ≤ q) (h2 : q < 2 ^ 63) : InIntRange (truncQ q) := by
  unfold truncQ InIntRange
  split
  · rename_i h0
    have hf : (0 : Int) ≤ ⌊q⌋ := Int.floor_nonneg.2 h0
    have hlt : ⌊q⌋ < 2 ^ 63 := by
      have : ((⌊q⌋ : Int) : ℚ) < ((2 ^ 63 : Int) : ℚ) := by
        push_cast; exact lt_of_le_of_lt (Int.floor_le q) h2
      exact_mod_cast this
    constructor <;> omega
  · rename_i h0
    have hc : ⌈q⌉ ≤ 0 := Int.ceil_le.2 (by push_cast; linarith)
    have hge : -(2 ^ 63) ≤ ⌈q⌉ := by
      have : ((-(2 ^ 63) : Int) : ℚ) ≤ ((⌈q⌉ : Int) : ℚ) := by
        push_cast; exact h1.trans (Int.le_ceil q)
      exact_mod_cast this
    constructor <;> omega

theorem ofRat_intCast_isInt {n : Int} {v : ℚ} (h : F64.ofRat (n : ℚ) = F64.fin v) :
    ∃ z : Int, v = z := by
  have habs : |(n : ℚ)| = ((n.natAbs : ℕ) : ℚ) := by
    rw [Nat.cast_natAbs, Int.cast_abs]
  obtain ⟨k, hk⟩ := roundMag_natCast_isInt n.natAbs
  rcases ofRat_cases (n : ℚ) with ⟨_, h1⟩ | ⟨_, _, h1⟩ | ⟨_, _, h1⟩ | ⟨_, _, h1⟩
  · rw [h1] at h; cases h; exact ⟨0, by simp⟩
  · rw [h1] at h; cases h
  · rw [h1] at h; cases h; exact ⟨k, by rw [habs, hk]; simp⟩
  · rw [h1] at h; cases h; exact ⟨-k, by rw [habs, hk]; simp⟩

theorem ofRat_of_inRange {k : Int} (hk : InIntRange k) :
    ∃ v, F64.ofRat (k : ℚ) = F64.fin v ∧ -(2 ^ 63) ≤ v ∧ v ≤ 2 ^ 63 := by
  have hb : |(k : ℚ)| ≤ 2 ^ 63 := by
    rw [← Int.cast_abs]
    have : |k| ≤ 2 ^ 63 := by
      unfold InIntRange at hk
      rw [abs_le]; constructor <;> omega
    exact_mod_cast this
  have h63 : (2 : ℚ) ^ 63 = ((1 : ℕ) : ℚ) * pow2 63 := by rw [pow2_63]; simp
  have hmag : ∀ (h0 : (k : ℚ) ≠ 0), roundMag |(k : ℚ)| ≤ 2 ^ 63 := fun h0 =>
    roundMag_le (abs_pos.2 h0) hb (by norm_num : (1 : ℕ) < 2 ^ 53) (by norm_num) h63
  have hbig : (2 : ℚ) ^ 63 < pow2 1024 := by
    rw [← pow2_63]; exact pow2_lt_pow2 (by norm_num)
  have hnn := roundMag_nonneg (abs_nonneg (k : ℚ))
  rcases ofRat_cases (k : ℚ) with ⟨_, h1⟩ | ⟨h0, ho, _⟩ | ⟨h0, _, h1⟩ | ⟨h0, _, h1⟩
  · exact ⟨0, h1, by norm_num, by norm_num⟩
  · exact absurd (lt_of_le_of_lt (hmag h0) hbig) (not_lt.2 ho)
  · exact ⟨_, h1, by linarith, hmag h0.ne'⟩
  · exact ⟨_, h1, by linarith [hmag h0.ne], by linarith⟩

theorem f2i_inRange (arch : Arch) (x : F64) : InIntRange (f2i arch x) := by
  unfold f2i
  split
  · split
    · assumption
    · exact wrapInt_inRange _
  · exact wrapInt_inRange _

theorem F64.eq_fin_iff {q : ℚ} {y : F64} : F64.eq (F64.fin q) y = true ↔ y = F64.fin q := by
  cases y <;> simp [F64.eq, eq_comm]

theorem rule2_values (arch : Arch) (receipt : Receipt) :
    rule2 arch receipt = 50 ∨ rule2 arch receipt = 0 := by
  unfold rule2
  simp only []
  split
  · exact Or.inl rfl
  · exact Or.inr rfl

theorem rule2_eq_fifty_iff (arch : Arch) (receipt : Receipt) :
    rule2 arch receipt = 50 ↔
      F64.eq (ParseFloat receipt.Total).1 (i2f (f2i arch (ParseFloat receipt.Total).1)) = true := by
  unfold rule2
  simp only []
  split <;> simp [*]

theorem rule2_in_range (arch : Arch) (receipt : Receipt) {q : ℚ}
    (ht : (ParseFloat receipt.Total).1 = F64.fin q) (h1 : -(2 ^ 63) ≤ q) (h2 : q < 2 ^ 63) :
    rule2 arch receipt = 50 ↔ ((truncQ q : Int) : ℚ) = q := by
  rw [rule2_eq_fifty_iff, ht, F64.eq_fin_iff]
  have hf : f2i arch (F64.fin q) = truncQ q := by
    simp [f2i, inRange_truncQ h1 h2]
  rw [hf, i2f]
  constructor
  · intro h
    obtain ⟨z, hz⟩ := ofRat_intCast_isInt h
    rw [hz, truncQ_intCast]
  · intro h
    rw [h]
    exact ofRat_of_representable (ParseFloat_representable ht)

theorem rule2_out_of_range (arch : Arch) (receipt : Receipt) {q : ℚ}
    (ht : (ParseFloat receipt.Total).1 = F64.fin q) (h : q < -(2 ^ 63) ∨ 2 ^ 63 < q) :
    rule2 arch receipt = 0 := by
  rcases rule2_values arch receipt with h50 | h0
  · rw [rule2_eq_fifty_iff, ht, F64.eq_fin_iff, i2f] at h50
    obtain ⟨v, hv, hlo, hhi⟩ := ofRat_of_inRange (f2i_inRange arch (F64.fin q))
    rw [hv] at h50
    cases h50
    rcases h with h | h <;> linarith
  · exact h0

theorem rule2_not_finite (arch : Arch) (receipt : Receipt)
    (ht : ∀ q, (ParseFloat receipt.Total).1 ≠ F64.fin q) : rule2 arch receipt = 0 := by
  rcases rule2_values arch receipt with h50 | h0
  · rw [rule2_eq_fifty_iff, i2f] at h50
    obtain ⟨v, hv, -, -⟩ := ofRat_of_inRange (f2i_inRange arch (ParseFloat receipt.Total).1)
    rw [hv] at h50
    cases hp : (ParseFloat receipt.Total).1 with
    | nan => rw [hp] at h50; simp [F64.eq] at h50
    | inf b => rw [hp] at h50; simp [F64.eq] at h50
    | fin q => exact absurd hp (ht q)
  · exact h0

/-! ## Rule 3: the quarter multiple -/

theorem Mod25_eq_zero_iff (p : ℚ) :
    F64.eq (Mod (F64.fin p) (F64.fin 25)) (F64.fin 0) = true ↔ ∃ j : Int, p = 25 * j := by
  have h25 : |(25 : ℚ)| = 25 := abs_of_pos (by norm_num)
  have hm : Mod (F64.fin p) (F64.fin 25)
      = F64.fin (if p < 0 then -(|p| - 25 * ((⌊|p| / 25⌋ : Int) : ℚ))
          else |p| - 25 * ((⌊|p| / 25⌋ : Int) : ℚ)) := by
    simp [Mod, h25]
  rw [hm]
  simp only [F64.eq, decide_eq_true_eq]
  constructor
  · intro h
    have hr : |p| = 25 * ((⌊|p| / 25⌋ : Int) : ℚ) := by
      split at h
      · linarith
      · linarith
    rcases abs_cases p with ⟨hp, _⟩ | ⟨hp, _⟩
    · exact ⟨⌊|p| / 25⌋, by rw [← hr, hp]⟩
    · exact ⟨-⌊|p| / 25⌋, by push_cast; linarith⟩
  · rintro ⟨j, rfl⟩
    have : |(25 : ℚ) * j| / 25 = ((|j| : Int) : ℚ) := by
      rw [abs_mul, h25, Int.cast_abs]; field_simp
    rw [this, Int.floor_intCast]
    rw [abs_mul, h25, Int.cast_abs]
    split <;> ring

theorem rule3_values (receipt : Receipt) : rule3 receipt = 25 ∨ rule3 receipt = 0 := by
  unfold rule3
  simp only []
  split
  · exact Or.inl rfl
  · exact Or.inr rfl

theorem rule3_eq_iff (receipt : Receipt) :
    rule3 receipt = 25 ↔
      ∃ (p : ℚ) (j : Int),
        F64.mul (ParseFloat receipt.Total).1 (F64.fin 100) = F64.fin p ∧ p = 25 * j := by
  unfold rule3
  simp only []
  cases hm : F64.mul (ParseFloat receipt.Total).1 (F64.fin 100) with
  | nan => simp [Mod, F64.eq]
  | inf b => simp [Mod, F64.eq]
  | fin p =>
    have := Mod25_eq_zero_iff p
    constructor
    · intro h
      by_cases hc : F64.eq (Mod (F64.fin p) (F64.fin 25)) (F64.fin 0) = true
      · obtain ⟨j, hj⟩ := this.1 hc
        exact ⟨p, j, rfl, hj⟩
      · rw [if_neg hc] at h; simp at h
    · rintro ⟨p', j, hp, hj⟩
      cases hp
      rw [if_pos (this.2 ⟨j, hj⟩)]

theorem rule3_not_finite (receipt : Receipt)
    (ht : ∀ q, (ParseFloat receipt.Total).1 ≠ F64.fin q) : rule3 receipt = 0 := by
  rcases rule3_values receipt with h | h
  · rw [rule3_eq_iff] at h
    obtain ⟨p, j, hp, -⟩ := h
    cases hq : (ParseFloat receipt.Total).1 with
    | nan => rw [hq] at hp; simp [F64.mul] at hp
    | inf b => rw [hq] at hp; simp [F64.mul] at hp
    | fin q => exact absurd hq (ht q)
  · exact h

theorem rule3_of_quarter (receipt : Receipt) {q : ℚ}
    (ht : (ParseFloat receipt.Total).1 = F64.fin q) (hq : |q| ≤ 2 ^ 46) {k : Int}
    (hk : q = k / 4) : rule3 receipt = 25 := by
  rw [rule3_eq_iff, ht]
  refine ⟨25 * k, k, ?_, rfl⟩
  have hx : q * 100 = 25 * k := by rw [hk]; ring
  simp only [F64.mul]
  rw [hx]
  apply ofRat_of_representable
  have hkabs : |(k : ℚ)| ≤ 2 ^ 48 := by
    have : (k : ℚ) = 4 * q := by rw [hk]; ring
    rw [this, abs_mul, abs_of_pos (by norm_num : (0 : ℚ) < 4)]
    linarith
  have hk' : k.natAbs ≤ 2 ^ 48 := by
    have : ((k.natAbs : ℕ) : ℚ) ≤ ((2 ^ 48 : ℕ) : ℚ) := by
      rw [Nat.cast_natAbs, Int.cast_abs]; push_cast; exact hkabs
    exact_mod_cast this
  have habs : |(25 : ℚ) * k| = ((25 * k.natAbs : ℕ) : ℚ) * pow2 0 := by
    rw [pow2_zero, mul_one, abs_mul, abs_of_pos (by norm_num : (0 : ℚ) < 25)]
    push_cast
    rw [Nat.cast_natAbs, Int.cast_abs]
  refine ⟨25 * k.natAbs, 0, by omega, by norm_num, habs, ?_⟩
  rw [habs, pow2_zero, mul_one]
  have h1 : ((25 * k.natAbs : ℕ) : ℚ) < ((2 ^ 1024 : ℕ) : ℚ) := by
    have : 25 * k.natAbs < 2 ^ 1024 := by
      calc 25 * k.natAbs ≤ 25 * 2 ^ 48 := by omega
        _ < 2 ^ 1024 := by norm_num
    exact_mod_cast this
  rw [show (1024 : Int) = ((1024 : ℕ) : Int) by rfl, pow2_natCast]
  exact h1

theorem abs_quarter_of_exact_product {J M : Nat} {n : Nat} (hn : 3 ≤ n)
    (h : |(25 : ℚ) * J - 100 * (M * (1 / ((2 ^ n : ℕ) : ℚ)))| ≤ 64 * (1 / ((2 ^ n : ℕ) : ℚ))) :
    (M : ℚ) * (1 / ((2 ^ n : ℕ) : ℚ)) = J / 4 := by
  obtain ⟨m, rfl⟩ : ∃ m, n = m + 3 := ⟨n - 3, by omega⟩
  have hpos : (0 : ℚ) < ((2 ^ (m + 3) : ℕ) : ℚ) := by positivity
  have h1 : |(25 : ℚ) * J * ((2 ^ (m + 3) : ℕ) : ℚ) - 100 * M| ≤ 64 := by
    have e : (25 : ℚ) * J * ((2 ^ (m + 3) : ℕ) : ℚ) - 100 * M
        = ((25 : ℚ) * J - 100 * (M * (1 / ((2 ^ (m + 3) : ℕ) : ℚ)))) * ((2 ^ (m + 3) : ℕ) : ℚ) := by
      field_simp
    rw [e, abs_mul, abs_of_pos hpos]
    calc _ ≤ 64 * (1 / ((2 ^ (m + 3) : ℕ) : ℚ)) * ((2 ^ (m + 3) : ℕ) : ℚ) :=
          mul_le_mul_of_nonneg_right h hpos.le
      _ = 64 := by field_simp
  have h2 : |(200 : Int) * ((J * 2 ^ m : ℕ) : Int) - 100 * (M : Int)| ≤ 64 := by
    have e : (((200 : Int) * ((J * 2 ^ m : ℕ) : Int) - 100 * (M : Int) : Int) : ℚ)
        = (25 : ℚ) * J * ((2 ^ (m + 3) : ℕ) : ℚ) - 100 * M := by
      push_cast; ring
    have : |(((200 : Int) * ((J * 2 ^ m : ℕ) : Int) - 100 * (M : Int) : Int) : ℚ)| ≤ 64 := by
      rw [e]; exact h1
    rw [← Int.cast_abs] at this
    exact_mod_cast this
  have h3 : (M : Int) = 2 * ((J * 2 ^ m : ℕ) : Int) := by
    rw [abs_le] at h2
    omega
  have h4 : (M : ℚ) = 2 * ((J : ℚ) * 2 ^ m) := by
    have : ((M : Int) : ℚ) = ((2 * ((J * 2 ^ m : ℕ) : Int) : Int) : ℚ) := by rw [h3]
    push_cast at this
    exact this
  rw [h4]
  push_cast
  field_simp
  ring

theorem quarter_of_rule3 (receipt : Receipt) {q : ℚ}
    (ht : (ParseFloat receipt.Total).1 = F64.fin q) (h : rule3 receipt = 25) :
    ∃ k : Int, q = k / 4 := by
  obtain ⟨p, j, hp, hj⟩ := (rule3_eq_iff receipt).1 h
  rw [ht] at hp
  simp only [F64.mul] at hp
  obtain ⟨M, E, hM, hE, hq, -⟩ := ParseFloat_representable ht
  suffices hJ : ∃ J : Nat, |q| = J / 4 by
    obtain ⟨J, hJ⟩ := hJ
    rcases abs_cases q with ⟨hq', _⟩ | ⟨hq', _⟩
    · exact ⟨J, by rw [← hq', hJ]; simp⟩
    · exact ⟨-J, by push_cast; linarith⟩
  by_cases hE2 : -2 ≤ E
  · refine ⟨M * 2 ^ (E + 2).toNat, ?_⟩
    have : E = ((E + 2).toNat : Int) + (-2) := by omega
    rw [hq]
    conv_lhs => rw [this, pow2_add, pow2_natCast]
    have : pow2 (-2) = 1 / 4 := by simp [pow2]
    rw [this]
    push_cast
    ring
  · have hneg : ¬ (0 ≤ E) := by omega
    have hpE : pow2 E = 1 / ((2 ^ (-E).toNat : ℕ) : ℚ) := by
      unfold pow2; rw [if_neg hneg]
    have hn3 : 3 ≤ (-E).toNat := by omega
    rcases ofRat_cases (q * 100) with ⟨h0, _⟩ | ⟨_, _, h1⟩ | ⟨h0, _, h1⟩ | ⟨h0, _, h1⟩
    · exact ⟨0, by
        have : q = 0 := by linarith
        simp [this]⟩
    · rw [h1] at hp; cases hp
    all_goals
      rw [h1] at hp
      cases hp
      refine ⟨j.natAbs, ?_⟩
      have ha : |q * 100| = 100 * ((M : ℚ) * pow2 E) := by
        rw [abs_mul, hq, abs_of_pos (by norm_num : (0 : ℚ) < 100)]; ring
      have hapos : 0 < |q * 100| := abs_pos.2 (by
        intro hz; rw [hz] at h0; exact lt_irrefl _ h0)
      have hr : roundMag |q * 100| = 25 * (j.natAbs : ℚ) := by
        have hnn := roundMag_nonneg (abs_nonneg (q * 100))
        have : roundMag |q * 100| = |(25 : ℚ) * j| := by
          first
            | rw [← hj, abs_of_nonneg hnn]
            | rw [← hj, abs_neg, abs_of_nonneg hnn]
        rw [this, abs_mul, abs_of_pos (by norm_num : (0 : ℚ) < 25), Nat.cast_natAbs, Int.cast_abs]
      have hu : ulpExp |q * 100| ≤ E + 7 := by
        refine ulpExp_le_of_le hapos ?_ hM (by omega) rfl
        rw [ha, pow2_add]
        have h7 : pow2 7 = 128 := by
          rw [show (7 : Int) = ((7 : ℕ) : Int) by rfl, pow2_natCast]; norm_num
        rw [h7]
        have : 0 ≤ (M : ℚ) * pow2 E := mul_nonneg (Nat.cast_nonneg M) (pow2_pos E).le
        nlinarith
      have herr := abs_roundMag_sub |q * 100|
      have hb : pow2 (ulpExp |q * 100|) / 2 ≤ 64 * pow2 E := by
        have := pow2_le_pow2 hu
        rw [pow2_add] at this
        have h7 : pow2 7 = 128 := by
          rw [show (7 : Int) = ((7 : ℕ) : Int) by rfl, pow2_natCast]; norm_num
        rw [h7] at this
        linarith
      have hfin := herr.trans hb
      rw [hr, ha, hpE] at hfin
      rw [hq, hpE]
      exact abs_quarter_of_exact_product hn3 hfin

/-! ## C8: the round-dollar rule -/

/-- C8: the code departs from the claim, and from its own comment "50 points if the total is a
round dollar amount with no cents", at the total `10000000000000000000`.  The total parses
without error as the whole number `10^19`, which equals its own integer truncation, and Rule 2
contributes 0 on both ports, because `int(total)` does not fit in 64 bits and
`float64(int(total))` differs from `total`. -/
theorem c8_whole_total_without_bonus :
    ParseFloat wholeHugeTotalReceipt.Total = (F64.fin 10000000000000000000, none) ∧
    ((truncQ 10000000000000000000 : Int) : ℚ) = 10000000000000000000 ∧
    rule2 amd64 wholeHugeTotalReceipt = 0 ∧ rule2 arm64 wholeHugeTotalReceipt = 0 := by
  decide!

/-- Rule 2 contributes 50 or 0.  When the total parses to a float64 `q` with
`-2^63 <= q < 2^63`, it contributes 50 exactly when `q` equals its own integer truncation
(negative and zero totals included).  When `q` lies below `-2^63` or above `2^63`, or the total
is an infinity or NaN, it contributes 0 whatever the port yields for `int(total)`. -/
theorem rule2_round_dollar (arch : Arch) (receipt : Receipt) :
    (rule2 arch receipt = 50 ∨ rule2 arch receipt = 0) ∧
    (∀ q, (ParseFloat receipt.Total).1 = F64.fin q → -(2 ^ 63) ≤ q → q < 2 ^ 63 →
      (rule2 arch receipt = 50 ↔ ((truncQ q : Int) : ℚ) = q)) ∧
    (∀ q, (ParseFloat receipt.Total).1 = F64.fin q → (q < -(2 ^ 63) ∨ 2 ^ 63 < q) →
      rule2 arch receipt = 0) ∧
    ((∀ q, (ParseFloat receipt.Total).1 ≠ F64.fin q) → rule2 arch receipt = 0) :=
  ⟨rule2_values arch receipt,
   fun _ ht h1 h2 => rule2_in_range arch receipt ht h1 h2,
   fun _ ht h => rule2_out_of_range arch receipt ht h,
   fun ht => rule2_not_finite arch receipt ht⟩

/-- The total `9.00` earns the 50 points of Rule 2. -/
theorem rule2_round_dollar_example : rule2 amd64 nineDollarReceipt = 50 :=
  ((rule2_round_dollar amd64 nineDollarReceipt).2.1 9 (by decide!) (by norm_num)
    (by norm_num)).2 (by decide!)

/-! ## C9: the quarter-multiple rule -/

/-- C9: the code departs from the claim, and from its own comment "25 points if the total is a
multiple of 0.25", at the total `9007199254740991`.  The total parses exactly, is a whole
number and so an exact multiple of 0.25, and Rule 3 contributes 0, because the float64 product
`total*100` is rounded to `900719925474099072`, which is not a multiple of 25 (Rule 2
contributes 50). -/
theorem c9_multiple_without_bonus :
    ParseFloat longTotalReceipt.Total = (F64.fin 9007199254740991, none) ∧
    (9007199254740991 : ℚ) = ((36028797018963964 : Int) : ℚ) / 4 ∧
    F64.mul (F64.fin 9007199254740991) (F64.fin 100) = F64.fin 900719925474099072 ∧
    rule3 longTotalReceipt = 0 ∧ rule2 amd64 longTotalReceipt = 50 := by
  decide!

/-- Rule 3 contributes 25 or 0, and 25 exactly when the float64 product `total*100` is a
finite multiple of 25.  When the total parses to a float64 `q`, the rule contributes 25 only if
`q` is an exact multiple of 0.25, and for `|q| <= 2^46` it contributes 25 exactly when `q` is
an exact multiple of 0.25.  It contributes 0 when the total is an infinity or NaN. -/
theorem rule3_quarter_multiple (receipt : Receipt) :
    (rule3 receipt = 25 ∨ rule3 receipt = 0) ∧
    (rule3 receipt = 25 ↔ ∃ (p : ℚ) (j : Int),
      F64.mul (ParseFloat receipt.Total).1 (F64.fin 100) = F64.fin p ∧ p = 25 * j) ∧
    (∀ q, (ParseFloat receipt.Total).1 = F64.fin q → rule3 receipt = 25 →
      ∃ k : Int, q = k / 4) ∧
    (∀ q, (ParseFloat receipt.Total).1 = F64.fin q → |q| ≤ 2 ^ 46 →
      (rule3 receipt = 25 ↔ ∃ k : Int, q = k / 4)) ∧
    ((∀ q, (ParseFloat receipt.Total).1 ≠ F64.fin q) → rule3 receipt = 0) :=
  ⟨rule3_values receipt, rule3_eq_iff receipt,
   fun _ ht h => quarter_of_rule3 receipt ht h,
   fun _ ht hq => ⟨fun h => quarter_of_rule3 receipt ht h,
     fun ⟨_, hk⟩ => rule3_of_quarter receipt ht hq hk⟩,
   fun ht => rule3_not_finite receipt ht⟩

/-- The total `9.00` is 36 quarters and earns the 25 points of Rule 3; the total `35.35` gives
`3535`, which is not a multiple of 25, and earns nothing. -/
theorem rule3_quarter_multiple_example :
    rule3 nineDollarReceipt = 25 ∧
    F64.mul (ParseFloat targetReceipt.Total).1 (F64.fin 100) = F64.fin 3535 ∧
    rule3 targetReceipt = 0 :=
  ⟨((rule3_quarter_multiple nineDollarReceipt).2.2.2.1 9 (by decide!) (by norm_num)).2
      ⟨36, by norm_num⟩,
   by decide!, by decide!⟩

/-! ## Rule 5: the description length -/

theorem c0_2_eq : c0_2 = F64.fin (3602879701896397 / 18014398509481984) := by
  decide!

theorem ofRat_nonneg_le {x b : ℚ} (h0 : 0 ≤ x) (hxb : x ≤ b) {M : Nat} {E : Int}
    (hM : M < 2 ^ 53) (hE : -1074 ≤ E) (hb : b = M * pow2 E) (hfin : b < pow2 1024) :
    ∃ v, F64.ofRat x = F64.fin v ∧ 0 ≤ v ∧ v ≤ b := by
  rcases ofRat_cases x with ⟨hx, h1⟩ | ⟨hx, ho, _⟩ | ⟨hx, _, h1⟩ | ⟨hx, _, _⟩
  · exact ⟨0, h1, le_rfl, by rw [hx] at hxb; exact hxb⟩
  · have hpos : 0 < |x| := abs_pos.2 hx
    have := roundMag_le hpos (by rw [abs_of_nonneg h0]; exact hxb) hM hE hb
    exact absurd (lt_of_le_of_lt this hfin) (not_lt.2 ho)
  · have := roundMag_le (abs_pos.2 hx.ne') (by rw [abs_of_nonneg h0]; exact hxb) hM hE hb
    exact ⟨_, h1, roundMag_nonneg (abs_nonneg x), this⟩
  · exact absurd h0 (not_le.2 hx)

theorem f2i_intCast (arch : Arch) {z : Int} (hz : InIntRange z) :
    f2i arch (F64.fin (z : ℚ)) = z := by
  simp [f2i, truncQ_intCast, hz]

theorem pricePoints_nonneg (arch : Arch) {price : String} {q : ℚ}
    (hp : (ParseFloat price).1 = F64.fin q) (h0 : 0 ≤ q) (h1 : q < 2 ^ 63) :
    0 ≤ pricePoints arch price := by
  unfold pricePoints
  rw [hp, c0_2_eq]
  simp only [F64.mul]
  have hx0 : 0 ≤ q * (3602879701896397 / 18014398509481984) := by positivity
  have hxb : q * (3602879701896397 / 18014398509481984) ≤ 2 ^ 62 := by
    have : q * (3602879701896397 / 18014398509481984) ≤ q * (1 / 2) :=
      mul_le_mul_of_nonneg_left (by norm_num) h0
    linarith
  have h62 : (2 : ℚ) ^ 62 = ((1 : ℕ) : ℚ) * pow2 62 := by
    rw [show (62 : Int) = ((62 : ℕ) : Int) by rfl, pow2_natCast]; norm_num
  have hbig : (2 : ℚ) ^ 62 < pow2 1024 := by
    rw [show (1024 : Int) = ((1024 : ℕ) : Int) by rfl, pow2_natCast]; norm_num
  obtain ⟨v, hv, hv0, hvb⟩ := ofRat_nonneg_le hx0 hxb (by norm_num : (1 : ℕ) < 2 ^ 53)
    (by norm_num) h62 hbig
  rw [hv]
  simp only [Ceil]
  have hc0 : (0 : Int) ≤ ⌈v⌉ := Int.ceil_nonneg hv0
  have hcb : ⌈v⌉ ≤ 2 ^ 62 := Int.ceil_le.2 (by push_cast; exact hvb)
  rw [f2i_intCast arch ⟨by omega, by omega⟩]
  exact hc0

theorem itemPoints_eq (arch : Arch) (item : Item) :
    itemPoints arch item = if qualifies item then pricePoints arch item.Price else 0 := by
  unfold itemPoints qualifies pricePoints
  simp

theorem sum_itemPoints_eq_filter (arch : Arch) (items : List Item) :
    (items.map (itemPoints arch)).sum
      = ((items.filter qualifies).map (fun item => pricePoints arch item.Price)).sum := by
  induction items with
  | nil => rfl
  | cons item rest ih =>
    rw [List.map_cons, List.sum_cons, ih, itemPoints_eq, List.filter_cons]
    split <;> simp

theorem rule5_nonneg (arch : Arch) (receipt : Receipt)
    (h : ∀ item ∈ receipt.Items, qualifies item = true →
      ∃ q, (ParseFloat item.Price).1 = F64.fin q ∧ 0 ≤ q ∧ q < 2 ^ 63) :
    0 ≤ rule5 arch receipt := by
  unfold rule5
  apply List.sum_nonneg
  intro x hx
  rw [List.mem_map] at hx
  obtain ⟨item, hmem, rfl⟩ := hx
  rw [itemPoints_eq]
  split
  · rename_i hq
    obtain ⟨q, hp, h0, h1⟩ := h item hmem hq
    exact pricePoints_nonneg arch hp h0 h1
  · exact le_rfl

theorem ruleSum_nonneg (arch : Arch) (receipt : Receipt)
    (h : ∀ item ∈ receipt.Items, qualifies item = true →
      ∃ q, (ParseFloat item.Price).1 = F64.fin q ∧ 0 ≤ q ∧ q < 2 ^ 63) :
    0 ≤ ruleSum arch receipt := by
  have h1 : 0 ≤ rule1 receipt := by unfold rule1; exact Int.natCast_nonneg _
  have h2 : 0 ≤ rule2 arch receipt := by rcases rule2_values arch receipt with h | h <;> omega
  have h3 : 0 ≤ rule3 receipt := by rcases rule3_values receipt with h | h <;> omega
  have h4 : 0 ≤ rule4 receipt := by unfold rule4; omega
  have h5 := rule5_nonneg arch receipt h
  have h6 : 0 ≤ rule6 receipt := by unfold rule6; split <;> omega
  have h7 : 0 ≤ rule7 receipt := by rcases rule7_values receipt with h | h <;> omega
  have h8 : 0 ≤ rule8 receipt := by unfold rule8; split <;> omega
  unfold ruleSum
  omega

theorem pricePoints_errSyntax (arch : Arch) {price : String}
    (h : (ParseFloat price).2 = some NumErr.errSyntax) : pricePoints arch price = 0 := by
  unfold pricePoints
  rw [ParseFloat_errSyntax h, c0_2_eq]
  simp [F64.mul, ofRat_zero, Ceil, f2i_zero]

theorem pricePoints_of_fin (arch : Arch) {price : String} {p : ℚ}
    (h : F64.mul (ParseFloat price).1 c0_2 = F64.fin p) (hr : InIntRange ⌈p⌉) :
    pricePoints arch price = ⌈p⌉ := by
  unfold pricePoints
  rw [h]
  simp only [Ceil]
  exact f2i_intCast arch hr

theorem descriptionPoints_eq (arch : Arch) (items : List Item) :
    descriptionPoints arch items = wrapInt ((items.map (itemPoints arch)).sum) := by
  unfold descriptionPoints
  have := foldl_itemStep arch items 0
  rw [wrapInt_zero, zero_add] at this
  exact this

/-! ## C4: the sign of the score -/

/-- C4, as stated, fails: the price `-100` parses as a negative number, the item contributes
`int(Ceil(-100 * 0.2)) = -20`, and the receipt scores `-20`.  Non-negative prices can give a
negative score too: two items priced `4e19` make the sum wrap around, and on amd64 the price
`1e300` converts to `-2^63`. -/
theorem c4_negative_price_scores :
    ParseFloat "-100" = (F64.fin (-100), none) ∧
    rule5 amd64 negativePriceReceipt = -20 ∧
    calculatePoints amd64 negativePriceReceipt = -20 ∧
    calculatePoints arm64 negativePriceReceipt = -20 ∧
    calculatePoints amd64 hugePricesReceipt < 0 ∧
    calculatePoints arm64 hugePricesReceipt < 0 ∧
    pricePoints amd64 "1e300" = -9223372036854775808 := by
  decide!

/-- C4, amended: Rules 1, 2, 3, 4, 6, 7 and 8 never contribute a negative amount, whatever
the receipt.  When the price of every item to which Rule 5 applies parses to a float64 `q` with
`0 <= q < 2^63`, Rule 5 contributes no negative amount either, and when moreover the sum of the
eight contributions is below `2^63`, `calculatePoints` is non-negative.  A malformed price (a
syntax error) parses to 0 and so meets the condition. -/
theorem c4_score_nonneg (arch : Arch) (receipt : Receipt) :
    (0 ≤ rule1 receipt ∧ 0 ≤ rule2 arch receipt ∧ 0 ≤ rule3 receipt ∧ 0 ≤ rule4 receipt ∧
      0 ≤ rule6 receipt ∧ 0 ≤ rule7 receipt ∧ 0 ≤ rule8 receipt) ∧
    ((∀ item ∈ receipt.Items, qualifies item = true →
        ∃ q, (ParseFloat item.Price).1 = F64.fin q ∧ 0 ≤ q ∧ q < 2 ^ 63) →
      0 ≤ rule5 arch receipt ∧
      (ruleSum arch receipt < 2 ^ 63 → 0 ≤ calculatePoints arch receipt)) ∧
    (∀ price : String, (ParseFloat price).2 = some NumErr.errSyntax →
      (ParseFloat price).1 = F64.fin 0) := by
  have h1 : 0 ≤ rule1 receipt := by unfold rule1; exact Int.natCast_nonneg _
  have h2 : 0 ≤ rule2 arch receipt := by rcases rule2_values arch receipt with h | h <;> omega
  have h3 : 0 ≤ rule3 receipt := by rcases rule3_values receipt with h | h <;> omega
  have h4 : 0 ≤ rule4 receipt := by unfold rule4; omega
  have h6 : 0 ≤ rule6 receipt := by unfold rule6; split <;> omega
  have h7 : 0 ≤ rule7 receipt := by rcases rule7_values receipt with h | h <;> omega
  have h8 : 0 ≤ rule8 receipt := by unfold rule8; split <;> omega
  refine ⟨⟨h1, h2, h3, h4, h6, h7, h8⟩, fun h => ⟨rule5_nonneg arch receipt h, fun hsum => ?_⟩,
    fun price hp => ParseFloat_errSyntax hp⟩
  have hs := ruleSum_nonneg arch receipt h
  rw [calculatePoints_eq_wrapInt, wrapInt_of_inRange ⟨by omega, hsum⟩]
  exact hs

/-- Witness of C4 amended, at the `Target` receipt: two items qualify, priced `12.25` and
`12.00`. -/
theorem c4_score_nonneg_witness :
    0 ≤ rule5 amd64 targetReceipt ∧ 0 ≤ calculatePoints amd64 targetReceipt :=
  have w := (c4_score_nonneg amd64 targetReceipt).2.1
    (by
      intro item hmem hq
      simp only [targetReceipt, List.mem_cons, List.mem_singleton, List.not_mem_nil,
        or_false] at hmem
      rcases hmem with rfl | rfl | rfl | rfl | rfl
      · exact absurd hq (by decide)
      · exact ⟨49 / 4, by decide!, by norm_num, by norm_num⟩
      · exact absurd hq (by decide)
      · exact absurd hq (by decide)
      · exact ⟨12, by decide!, by norm_num, by norm_num⟩)
  ⟨w.1, w.2 (by decide!)⟩

/-! ## C7: the description-length rule -/

/-- C7, as stated, fails: both items of `hugeItems` qualify and each price `3e19` gives
`ceiling(price * 0.2) = 6000000000000000000`, so the claimed contribution is
`12000000000000000000`; the loop yields the wrapped value `-6446744073709551616`. -/
theorem c7_description_sum_wraps_around :
    hugeItems.filter qualifies = hugeItems ∧
    Ceil (F64.mul (ParseFloat "3e19").1 c0_2) = F64.fin 6000000000000000000 ∧
    (hugeItems.map (itemPoints amd64)).sum = 12000000000000000000 ∧
    descriptionPoints amd64 hugeItems = -6446744073709551616 ∧
    descriptionPoints arm64 hugeItems = -6446744073709551616 := by
  decide!

/-- C7, amended: the loop of Rule 5 adds, reduced to Go's 64-bit `int`, the sum over exactly
the items whose trimmed description has a length (in bytes) that is a multiple of 3, zero
included, of `int(math.Ceil(price * 0.2))`, and exactly that sum when it lies in the `int` range.
An item whose trimmed length is not a multiple of 3 contributes 0; a price that is a syntax
error counts as 0; and a qualifying item contributes `ceiling(price * 0.2)`, computed in
float64, whenever that is finite and lies in the `int` range. -/
theorem c7_description_rule (arch : Arch) (items : List Item) :
    descriptionPoints arch items
      = wrapInt (((items.filter qualifies).map (fun item => pricePoints arch item.Price)).sum) ∧
    (InIntRange (((items.filter qualifies).map (fun item => pricePoints arch item.Price)).sum) →
      descriptionPoints arch items
        = ((items.filter qualifies).map (fun item => pricePoints arch item.Price)).sum) ∧
    (∀ item, qualifies item = (len (TrimSpace item.ShortDescription.data) % 3 = 0)) ∧
    (∀ item, qualifies item = false → itemPoints arch item = 0) ∧
    (∀ item, qualifies item = true → itemPoints arch item = pricePoints arch item.Price) ∧
    (∀ price, (ParseFloat price).2 = some NumErr.errSyntax → pricePoints arch price = 0) ∧
    (∀ price p, F64.mul (ParseFloat price).1 c0_2 = F64.fin p → InIntRange ⌈p⌉ →
      pricePoints arch price = ⌈p⌉) := by
  have hd := descriptionPoints_eq arch items
  rw [sum_itemPoints_eq_filter] at hd
  refine ⟨hd, fun hr => by rw [hd, wrapInt_of_inRange hr], ?_, ?_, ?_, ?_, ?_⟩
  · intro item
    simp [qualifies]
  · intro item hq
    rw [itemPoints_eq, hq]
    simp
  · intro item hq
    rw [itemPoints_eq, hq]
    simp
  · intro price h
    exact pricePoints_errSyntax arch h
  · intro price p h hr
    exact pricePoints_of_fin arch h hr

/-- Witness of C7 amended, at the items of the `Target` receipt: the two qualifying items add
3 points each; a blank description qualifies; a malformed price adds nothing. -/
theorem c7_description_rule_witness :
    descriptionPoints amd64 targetReceipt.Items = 6 ∧
    qualifies ⟨"   ", "5"⟩ = true ∧ itemPoints amd64 ⟨"   ", "5"⟩ = 1 ∧
    pricePoints amd64 "free" = 0 :=
  ⟨((c7_description_rule amd64 targetReceipt.Items).2.1 (by decide!)).trans (by decide!),
   by decide, by decide!,
   (c7_description_rule amd64 []).2.2.2.2.2.1 "free" (by decide!)⟩

/-! ## Date parsing, the retailer pattern, and permutations of the items -/

theorem parseDate_eq_some {s : List Char} {t : Time} :
    parseDate s = some t ↔
      ∃ y0 y1 y2 y3 m1 m0 d1 d0 : Char,
        s = [y0, y1, y2, y3, '-', m1, m0, '-', d1, d0] ∧
        (y0.isDigit = true ∧ y1.isDigit = true ∧ y2.isDigit = true ∧ y3.isDigit = true ∧
          m1.isDigit = true ∧ m0.isDigit = true ∧ d1.isDigit = true ∧ d0.isDigit = true) ∧
        (1 ≤ digitVal m1 * 10 + digitVal m0 ∧ digitVal m1 * 10 + digitVal m0 ≤ 12) ∧
        (1 ≤ digitVal d1 * 10 + digitVal d0 ∧
          digitVal d1 * 10 + digitVal d0 ≤
            daysIn (digitVal m1 * 10 + digitVal m0)
              (digitVal y0 * 1000 + digitVal y1 * 100 + digitVal y2 * 10 + digitVal y3)) ∧
        t = ⟨digitVal y0 * 1000 + digitVal y1 * 100 + digitVal y2 * 10 + digitVal y3,
             digitVal m1 * 10 + digitVal m0, digitVal d1 * 10 + digitVal d0, 0, 0⟩ := by
  constructor
  · intro h
    unfold parseDate at h
    split at h
    · rename_i y0 y1 y2 y3 v1
      split at h
      · simp at h
      · rename_i hy
        simp only [Bool.not_eq_true, Bool.not_eq_false', Bool.and_eq_true,
          Bool.not_eq_eq_eq_not, Bool.not_true, Bool.not_false] at hy
        simp only [] at h
        split at h
        · rename_i sep1 v2
          split at h
          · simp at h
          · rename_i hs1
            split at h
            · simp at h
            · rename_i month v3 hgm
              split at h
              · simp at h
              · rename_i hmr
                split at h
                · rename_i sep2 v4
                  split at h
                  · simp at h
                  · rename_i hs2
                    split at h
                    · simp at h
                    · rename_i day v5 hgd
                      split at h
                      · simp at h
                      · split at h
                        · simp at h
                        · rename_i hv5 hdr
                          simp at hs1 hs2 hv5
                          subst hs1 hs2 hv5
                          obtain ⟨m1, m0, rfl, hm1, hm0, rfl⟩ := getnum_fixed.1 hgm
                          obtain ⟨d1, d0, rfl, hd1, hd0, rfl⟩ := getnum_fixed.1 hgd
                          simp at hy
                          refine ⟨y0, y1, y2, y3, m1, m0, d1, d0, rfl,
                            ⟨hy.1, hy.2.1, hy.2.2.1, hy.2.2.2, hm1, hm0, hd1, hd0⟩,
                            by omega, by omega, by simpa using h.symm⟩
                · simp at h
        · simp at h
    · simp at h
  · rintro ⟨y0, y1, y2, y3, m1, m0, d1, d0, rfl, ⟨h0, h1, h2, h3, hm1, hm0, hd1, hd0⟩,
      hm, hd, rfl⟩
    have gm : getnum (m1 :: m0 :: '-' :: [d1, d0]) true
        = some (digitVal m1 * 10 + digitVal m0, '-' :: [d1, d0]) :=
      getnum_fixed.2 ⟨m1, m0, rfl, hm1, hm0, rfl⟩
    have gd : getnum [d1, d0] true = some (digitVal d1 * 10 + digitVal d0, []) :=
      getnum_fixed.2 ⟨d1, d0, rfl, hd1, hd0, rfl⟩
    unfold parseDate
    simp only [h0, h1, h2, h3, Bool.and_self, Bool.not_true]
    simp [gm, gd]
    omega
theorem isAlnum_iff (c : Char) :
    isAlnum c = true ↔
      ('a' ≤ c ∧ c ≤ 'z') ∨ ('A' ≤ c ∧ c ≤ 'Z') ∨ ('0' ≤ c ∧ c ≤ '9') := by
  have ha : ∀ d : Char, (d ≤ c ↔ d.toNat ≤ c.toNat) := fun d => by
    rw [Char.le_def]; rfl
  have hb : ∀ d : Char, (c ≤ d ↔ c.toNat ≤ d.toNat) := fun d => by
    rw [Char.le_def]; rfl
  simp only [isAlnum, ha, hb, Bool.or_eq_true, Bool.and_eq_true, decide_eq_true_eq]
  have e1 : ('a' : Char).toNat = 97 := rfl
  have e2 : ('z' : Char).toNat = 122 := rfl
  have e3 : ('A' : Char).toNat = 65 := rfl
  have e4 : ('Z' : Char).toNat = 90 := rfl
  have e5 : ('0' : Char).toNat = 48 := rfl
  have e6 : ('9' : Char).toNat = 57 := rfl
  rw [e1, e2, e3, e4, e5, e6]
  tauto

theorem isAlnum_of_nonAscii {c : Char} (h : 128 ≤ c.toNat) : isAlnum c = false := by
  unfold isAlnum
  simp
  omega

theorem rule6_of_parsed {receipt : Receipt} {t : Time}
    (h : parseDate receipt.PurchaseDate.data = some t) :
    rule6 receipt = if t.Day % 2 = 1 then 6 else 0 := by
  unfold rule6
  rw [h]
  simp only [timeOrZero, Option.getD_some]
  by_cases hd : t.Day % 2 = 1
  · rw [if_pos hd, if_pos (by omega)]
  · rw [if_neg hd, if_neg (by omega)]

theorem ruleSum_perm (arch : Arch) {r r' : Receipt}
    (h1 : r'.Retailer = r.Retailer) (h2 : r'.PurchaseDate = r.PurchaseDate)
    (h3 : r'.PurchaseTime = r.PurchaseTime) (h4 : r'.Total = r.Total)
    (hp : List.Perm r'.Items r.Items) : ruleSum arch r' = ruleSum arch r := by
  have hl : r'.Items.length = r.Items.length := hp.length_eq
  have hs : (r'.Items.map (itemPoints arch)).sum = (r.Items.map (itemPoints arch)).sum :=
    (hp.map _).sum_eq
  unfold ruleSum rule1 rule2 rule3 rule4 rule5 rule6 rule7 rule8
  rw [h1, h2, h3, h4, hl, hs]

/-! ## The store invariant and the frame of a request -/

theorem consistent_empty (arch : Arch) : Consistent arch Store.empty := by
  intro id
  simp [Store.empty]

theorem consistent_step (arch : Arch) {s : Store} (h : Consistent arch s) (req : Request) :
    Consistent arch (step arch s req) := by
  cases req with
  | points k => exact h
  | process k body =>
    cases body with
    | error err => exact h
    | ok receipt =>
      intro id
      by_cases hk : id = k
      · simp [step, processReceipt, mapSet, hk]
      · simpa [step, processReceipt, mapSet, hk] using h id

theorem consistent_foldl (arch : Arch) (reqs : List Request) {s : Store}
    (h : Consistent arch s) : Consistent arch (reqs.foldl (step arch) s) := by
  induction reqs generalizing s with
  | nil => exact h
  | cons req rest ih => exact ih (consistent_step arch h req)

theorem consistent_run (arch : Arch) (reqs : List Request) : Consistent arch (run arch reqs) :=
  consistent_foldl arch reqs (consistent_empty arch)

theorem step_frame (arch : Arch) (s : Store) (req : Request)
    (hnew : ∀ id body, req = Request.process id body → s.receipts id = none)
    (id' : String) (hpresent : s.receipts id' ≠ none) :
    (step arch s req).receipts id' = s.receipts id' ∧
    (step arch s req).points id' = s.points id' ∧
    getPoints (step arch s req) id' = getPoints s id' := by
  cases req with
  | points k => exact ⟨rfl, rfl, rfl⟩
  | process k body =>
    cases body with
    | error err => exact ⟨rfl, rfl, rfl⟩
    | ok receipt =>
      have hk : id' ≠ k := by
        intro hk
        rw [hk] at hpresent
        exact hpresent (hnew k _ rfl)
      simp [step, processReceipt, mapSet, hk, getPoints]

/-! ## C11: the odd-day rule -/

/-- C11: when the purchase date parses under the layout `2006-01-02` (four digits, a month
01 to 12 and a day that exists in that month, written `YYYY-MM-DD`), Rule 6 contributes 6
exactly when the day of the month is odd and 0 exactly when it is even; the day is the number
written by the last two digits. -/
theorem c11_odd_day (receipt : Receipt) (t : Time)
    (h : parseDate receipt.PurchaseDate.data = some t) :
    (rule6 receipt = 6 ↔ t.Day % 2 = 1) ∧ (rule6 receipt = 0 ↔ t.Day % 2 = 0) ∧
    (∃ y0 y1 y2 y3 m1 m0 d1 d0 : Char,
      receipt.PurchaseDate.data = [y0, y1, y2, y3, '-', m1, m0, '-', d1, d0] ∧
      t.Day = digitVal d1 * 10 + digitVal d0 ∧ 1 ≤ t.Day ∧
      t.Day ≤ daysIn (digitVal m1 * 10 + digitVal m0)
        (digitVal y0 * 1000 + digitVal y1 * 100 + digitVal y2 * 10 + digitVal y3)) := by
  have hr := rule6_of_parsed h
  refine ⟨?_, ?_, ?_⟩
  · rw [hr]; split <;> simp [*]
  · rw [hr]; split <;> simp [*]; omega
  · obtain ⟨y0, y1, y2, y3, m1, m0, d1, d0, hs, -, -, hd, rfl⟩ := parseDate_eq_some.1 h
    exact ⟨y0, y1, y2, y3, m1, m0, d1, d0, hs, rfl, hd.1, hd.2⟩

/-- Witness of C11: `2022-01-01` gives 6 and `2022-03-20` gives 0. -/
theorem c11_odd_day_witness :
    rule6 ⟨"", "2022-01-01", "", [], ""⟩ = 6 ∧ rule6 ⟨"", "2022-03-20", "", [], ""⟩ = 0 :=
  ⟨(c11_odd_day ⟨"", "2022-01-01", "", [], ""⟩ ⟨2022, 1, 1, 0, 0⟩ (by decide)).1.2 (by decide),
   (c11_odd_day ⟨"", "2022-03-20", "", [], ""⟩ ⟨2022, 3, 20, 0, 0⟩ (by decide)).2.1.2
     (by decide)⟩

/-! ## C12: the minimum-total rule -/

theorem roundMag_zero : roundMag 0 = 0 := by
  simp [roundMag, roundHalfEven]

theorem ofRat_of_overflows {q : ℚ} (h : F64.overflows q = true) :
    F64.ofRat q = F64.inf (decide (q < 0)) := by
  have hq : q ≠ 0 := by
    rintro rfl
    have hp := pow2_pos 1024
    simp [F64.overflows, roundMag_zero] at h
    linarith
  simp [F64.ofRat, hq, h]

theorem atof64_errRange {s : List Char} (h : (atof64 s).2.2 = some NumErr.errRange) :
    ∃ b, (atof64 s).1 = F64.inf b := by
  unfold atof64 at h ⊢
  split
  · rename_i v n hs
    rw [hs] at h
    simp at h
  · rename_i hs
    rw [hs] at h
    split
    · rename_i hr
      rw [hr] at h
      simp at h
    · rename_i l hl
      rw [hl] at h
      simp only [] at h ⊢
      by_cases ho : F64.overflows l.value = true
      · rw [if_pos ho]
        exact ⟨_, ofRat_of_overflows ho⟩
      · rw [if_neg ho] at h
        simp at h

theorem ParseFloat_errRange {s : String} (h : (ParseFloat s).2 = some NumErr.errRange) :
    ∃ b, (ParseFloat s).1 = F64.inf b := by
  unfold ParseFloat at h ⊢
  simp only [] at h ⊢
  split
  · rename_i hc
    rw [if_pos hc] at h
    simp at h
  · rename_i hc
    rw [if_neg hc] at h
    exact atof64_errRange h

/-- C12, as stated, fails: for the total `1e999` `ParseFloat` reports a range error, so the
total does not parse, and its value is `+Inf`, not 0; Rule 8 contributes 5. -/
theorem c12_out_of_range_total_scores :
    ParseFloat outOfRangeTotalReceipt.Total = (F64.inf false, some NumErr.errRange) ∧
    rule8 outOfRangeTotalReceipt = 5 := by
  decide!

/-- C12, amended: Rule 8 contributes 5 or 0, and 5 exactly when the float64 value that
`ParseFloat` leaves for the total is strictly greater than 10, that is, a finite value above 10
or `+Inf`.  A total of exactly 10 earns nothing.  A malformed total (a syntax error) is taken
as 0 and earns nothing.  A total beyond the float64 range (a range error) is taken as an
infinity, not as 0: as `+Inf`, and it earns 5, or as `-Inf`, and it earns nothing. -/
theorem c12_minimum_total (receipt : Receipt) :
    (rule8 receipt = 5 ∨ rule8 receipt = 0) ∧
    (rule8 receipt = 5 ↔
      (∃ q, (ParseFloat receipt.Total).1 = F64.fin q ∧ 10 < q) ∨
        (ParseFloat receipt.Total).1 = F64.inf false) ∧
    ((ParseFloat receipt.Total).1 = F64.fin 10 → rule8 receipt = 0) ∧
    ((ParseFloat receipt.Total).2 = some NumErr.errSyntax →
      (ParseFloat receipt.Total).1 = F64.fin 0 ∧ rule8 receipt = 0) ∧
    ((ParseFloat receipt.Total).2 = some NumErr.errRange →
      ((ParseFloat receipt.Total).1 = F64.inf false ∧ rule8 receipt = 5) ∨
      ((ParseFloat receipt.Total).1 = F64.inf true ∧ rule8 receipt = 0)) := by
  refine ⟨?_, ?_, ?_, ?_, ?_⟩
  · unfold rule8; split <;> simp
  · unfold rule8
    cases (ParseFloat receipt.Total).1 with
    | nan => simp [F64.gt]
    | inf b => cases b <;> simp [F64.gt]
    | fin q =>
      by_cases hq : 10 < q
      · simp [F64.gt, hq]
      · simp [F64.gt, hq]
  · intro h
    simp [rule8, h, F64.gt]
  · intro h
    have h0 := ParseFloat_errSyntax h
    exact ⟨h0, by simp [rule8, h0, F64.gt]⟩
  · intro h
    obtain ⟨b, hb⟩ := ParseFloat_errRange h
    cases b with
    | false => exact Or.inl ⟨hb, by simp [rule8, hb, F64.gt]⟩
    | true => exact Or.inr ⟨hb, by simp [rule8, hb, F64.gt]⟩

/-- Witness of C12 amended: the totals `35.35`, `10.00`, `9.00`, the malformed `abc`, and the
out-of-range `1e999` and `-1e999`. -/
theorem c12_minimum_total_witness :
    rule8 targetReceipt = 5 ∧ rule8 ⟨"", "", "", [], "10.00"⟩ = 0 ∧
    rule8 nineDollarReceipt = 0 ∧ rule8 malformedTotalReceipt = 0 ∧
    (ParseFloat negativeOutOfRangeTotalReceipt.Total).2 = some NumErr.errRange ∧
    (((ParseFloat negativeOutOfRangeTotalReceipt.Total).1 = F64.inf false ∧
        rule8 negativeOutOfRangeTotalReceipt = 5) ∨
      ((ParseFloat negativeOutOfRangeTotalReceipt.Total).1 = F64.inf true ∧
        rule8 negativeOutOfRangeTotalReceipt = 0)) ∧
    rule8 negativeOutOfRangeTotalReceipt = 0 :=
  ⟨by decide!,
   (c12_minimum_total ⟨"", "", "", [], "10.00"⟩).2.2.1 (by decide!),
   by decide!,
   ((c12_minimum_total malformedTotalReceipt).2.2.2.1 (by decide!)).2,
   by decide!,
   (c12_minimum_total negativeOutOfRangeTotalReceipt).2.2.2.2 (by decide!),
   by decide!⟩

/-! ## C13: the retailer rule -/

/-- C13: Rule 1 contributes the number of characters of the retailer name that are ASCII
letters `a`-`z`, `A`-`Z` or ASCII digits `0`-`9`: each such character adds 1, every other
character adds 0, in particular every non-ASCII character; `Target` gives 6 and
`M&M Corner Market` gives 14. -/
theorem c13_retailer_count (receipt : Receipt) :
    rule1 receipt = (receipt.Retailer.data.countP isAlnum : Int) ∧
    (∀ c : Char, isAlnum c = true ↔
      ('a' ≤ c ∧ c ≤ 'z') ∨ ('A' ≤ c ∧ c ≤ 'Z') ∨ ('0' ≤ c ∧ c ≤ '9')) ∧
    (∀ c : Char, 128 ≤ c.toNat → isAlnum c = false) ∧
    (∀ (c : Char) (s : List Char),
      (FindAllString (c :: s)).length = (if isAlnum c then 1 else 0) + (FindAllString s).length) ∧
    isAlnum ' ' = false ∧ isAlnum '&' = false ∧
    rule1 targetReceipt = 6 ∧ rule1 nineDollarReceipt = 14 := by
  refine ⟨?_, isAlnum_iff, fun c h => isAlnum_of_nonAscii h, ?_, by decide, by decide,
    by decide, by decide⟩
  · unfold rule1 FindAllString
    rw [List.countP_eq_length_filter]
  · intro c s
    unfold FindAllString
    rw [List.filter_cons]
    split <;> simp [Nat.add_comm]

/-! ## C14: the item-pair rule -/

/-- C14: Rule 4 contributes `5 * floor(n / 2)` for a receipt with `n` items: 0 for no item or
one item, 10 for four and for five items. -/
theorem c14_item_pairs (receipt : Receipt) :
    rule4 receipt = 5 * ((receipt.Items.length / 2 : Nat) : Int) ∧
    (receipt.Items.length = 0 → rule4 receipt = 0) ∧
    (receipt.Items.length = 1 → rule4 receipt = 0) ∧
    (receipt.Items.length = 4 → rule4 receipt = 10) ∧
    (receipt.Items.length = 5 → rule4 receipt = 10) := by
  unfold rule4
  refine ⟨by push_cast; omega, ?_, ?_, ?_, ?_⟩ <;> intro h <;> rw [h] <;> decide

/-- Witness of C14: the `Target` receipt has five items and earns 10; an empty list earns 0. -/
theorem c14_item_pairs_witness :
    rule4 targetReceipt = 10 ∧ rule4 malformedTotalReceipt = 0 :=
  ⟨(c14_item_pairs targetReceipt).2.2.2.2 (by decide),
   (c14_item_pairs malformedTotalReceipt).2.1 (by decide)⟩

/-! ## C15: the order of the items -/

/-- C15: two receipts that differ only by a permutation of their items have the same
`calculatePoints`. -/
theorem c15_items_order_irrelevant (arch : Arch) (r r' : Receipt)
    (h1 : r'.Retailer = r.Retailer) (h2 : r'.PurchaseDate = r.PurchaseDate)
    (h3 : r'.PurchaseTime = r.PurchaseTime) (h4 : r'.Total = r.Total)
    (hp : List.Perm r'.Items r.Items) :
    calculatePoints arch r' = calculatePoints arch r := by
  rw [calculatePoints_eq_wrapInt, calculatePoints_eq_wrapInt, ruleSum_perm arch h1 h2 h3 h4 hp]

/-- Witness of C15: swapping the two items of a receipt leaves the score unchanged. -/
theorem c15_items_order_irrelevant_witness :
    calculatePoints amd64 twoItemsSwappedReceipt = calculatePoints amd64 twoItemsReceipt :=
  c15_items_order_irrelevant amd64 twoItemsReceipt twoItemsSwappedReceipt rfl rfl rfl rfl
    (List.Perm.swap _ _ _)

/-! ## C16: recorded scores do not change -/

/-- C16: a request that is a lookup, a submission that fails to decode, or a submission under
an identifier not yet in the store leaves every record that was present unchanged: the stored
receipt, the stored points and the answer of `getPoints` are the same after as before. -/
theorem c16_records_unchanged (arch : Arch) (s : Store) (req : Request)
    (hnew : ∀ id body, req = Request.process id body → s.receipts id = none)
    (id' : String) (hpresent : s.receipts id' ≠ none) :
    (step arch s req).receipts id' = s.receipts id' ∧
    (step arch s req).points id' = s.points id' ∧
    getPoints (step arch s req) id' = getPoints s id' :=
  step_frame arch s req hnew id' hpresent

/-- Witness of C16: submitting a second receipt under `b` leaves the record of `a` as it
was. -/
theorem c16_records_unchanged_witness :
    getPoints (step amd64 oneReceiptStore (Request.process "b" (Except.ok nineDollarReceipt))) "a"
      = getPoints oneReceiptStore "a" ∧
    getPoints oneReceiptStore "a" = Response.ok ⟨33⟩ :=
  ⟨(c16_records_unchanged amd64 oneReceiptStore
      (Request.process "b" (Except.ok nineDollarReceipt))
      (by
        intro id body h
        cases h
        decide)
      "a" (by decide)).2.2,
   by decide!⟩

/-! ## C17: two submissions of the same receipt -/

/-- C17, as stated, fails: nothing in `processReceipt` makes the identifier differ from the
earlier ones.  When `uuid.New` draws `a` for both submissions of the `Target` receipt, the two
responses carry the same identifier `a`. -/
theorem c17_same_identifier_twice :
    (processReceipt amd64 Store.empty "a" (Except.ok targetReceipt)).2
      = (processReceipt amd64 oneReceiptStore "a" (Except.ok targetReceipt)).2 ∧
    (processReceipt amd64 oneReceiptStore "a" (Except.ok targetReceipt)).2
      = Response.ok ⟨"a"⟩ ∧
    returnedIds [Request.process "a" (Except.ok targetReceipt),
      Request.process "a" (Except.ok targetReceipt)] = ["a", "a"] := by
  decide

/-- C17, amended: after the same receipt is submitted twice, under the identifiers `id1` and
then `id2` that `uuid.New` drew, `getPoints` succeeds on both and returns the same score,
`calculatePoints` of the receipt.  The responses carry `id1` and `id2`; when the two
identifiers differ, the two responses differ and the store holds a record of the receipt under
each, so nothing is deduplicated or overwritten by content; when they are equal, the two
responses are equal. -/
theorem c17_same_receipt_twice (arch : Arch) (s : Store) (id1 id2 : String) (receipt : Receipt) :
    getPoints (processReceipt arch (processReceipt arch s id1 (Except.ok receipt)).1 id2
        (Except.ok receipt)).1 id1 = Response.ok ⟨calculatePoints arch receipt⟩ ∧
    getPoints (processReceipt arch (processReceipt arch s id1 (Except.ok receipt)).1 id2
        (Except.ok receipt)).1 id2 = Response.ok ⟨calculatePoints arch receipt⟩ ∧
    (processReceipt arch s id1 (Except.ok receipt)).2 = Response.ok ⟨id1⟩ ∧
    (processReceipt arch (processReceipt arch s id1 (Except.ok receipt)).1 id2
        (Except.ok receipt)).2 = Response.ok ⟨id2⟩ ∧
    (id1 ≠ id2 →
      (processReceipt arch s id1 (Except.ok receipt)).2
        ≠ (processReceipt arch (processReceipt arch s id1 (Except.ok receipt)).1 id2
            (Except.ok receipt)).2 ∧
      (processReceipt arch (processReceipt arch s id1 (Except.ok receipt)).1 id2
        (Except.ok receipt)).1.receipts id1 = some receipt ∧
      (processReceipt arch (processReceipt arch s id1 (Except.ok receipt)).1 id2
        (Except.ok receipt)).1.receipts id2 = some receipt) ∧
    (id1 = id2 →
      (processReceipt arch s id1 (Except.ok receipt)).2
        = (processReceipt arch (processReceipt arch s id1 (Except.ok receipt)).1 id2
            (Except.ok receipt)).2) := by
  refine ⟨?_, ?_, rfl, rfl, ?_, ?_⟩
  · by_cases h : id1 = id2 <;> simp [getPoints, processReceipt, mapSet, h]
  · simp [getPoints, processReceipt, mapSet]
  · intro h
    simp [processReceipt, mapSet, h]
  · intro h
    simp [processReceipt, h]

/-- Witness of C17 amended: the `Target` receipt submitted under `a` and again under `b`. -/
theorem c17_same_receipt_twice_witness :
    (processReceipt amd64 oneReceiptStore "b" (Except.ok targetReceipt)).1.receipts "a"
      = some targetReceipt ∧
    (processReceipt amd64 oneReceiptStore "b" (Except.ok targetReceipt)).1.receipts "b"
      = some targetReceipt :=
  ((c17_same_receipt_twice amd64 Store.empty "a" "b" targetReceipt).2.2.2.2.1 (by decide)).2

/-! ## C18: the receipts and the points agree -/

/-- C18: in every store reached from the two empty maps by submissions and lookups, a key is
in `receipts` exactly when it is in `points`, and `points[id]` is `calculatePoints` of
`receipts[id]`; so whenever `getPoints` answers with points, the value is the stored entry of
`points`, equal to the score of the stored receipt, never the default of a missing key. -/
theorem c18_store_consistent (arch : Arch) (reqs : List Request) (id : String) :
    ((run arch reqs).receipts id = none ↔ (run arch reqs).points id = none) ∧
    (∀ receipt, (run arch reqs).receipts id = some receipt →
      (run arch reqs).points id = some (calculatePoints arch receipt)) ∧
    (∀ p, getPoints (run arch reqs) id = Response.ok p →
      (run arch reqs).points id = some p.Points ∧
      ∃ receipt, (run arch reqs).receipts id = some receipt ∧
        p.Points = calculatePoints arch receipt) := by
  have hc := consistent_run arch reqs id
  refine ⟨⟨hc.1, ?_⟩, hc.2, ?_⟩
  · intro hp
    cases hr : (run arch reqs).receipts id with
    | none => rfl
    | some receipt =>
      have := hc.2 receipt hr
      rw [hp] at this
      cases this
  · intro p hg
    unfold getPoints at hg
    cases hr : (run arch reqs).receipts id with
    | none => rw [hr] at hg; cases hg
    | some receipt =>
      have hp := hc.2 receipt hr
      rw [hr] at hg
      simp only [hp, Option.getD_some] at hg
      cases hg
      exact ⟨hp, receipt, rfl, rfl⟩

/-- Witness of C18: after a lookup, a failed submission and a submission of the `Target`
receipt under `a`, `points` holds 33 under `a`. -/
theorem c18_store_consistent_witness :
    (run amd64 [Request.points "a", Request.process "z" (Except.error "EOF"),
      Request.process "a" (Except.ok targetReceipt)]).points "a" = some 33 :=
  ((c18_store_consistent amd64 [Request.points "a", Request.process "z" (Except.error "EOF"),
      Request.process "a" (Except.ok targetReceipt)] "a").2.1 targetReceipt (by decide)).trans
    (by decide!)

/-! ## C19: the two bonuses on the total -/

theorem rule3_of_rule2 (arch : Arch) (receipt : Receipt) {q : ℚ}
    (ht : (ParseFloat receipt.Total).1 = F64.fin q) (hq : |q| ≤ 2 ^ 46)
    (h50 : rule2 arch receipt = 50) : rule3 receipt = 25 := by
  have hb := abs_le.1 hq
  have h1 : -(2 ^ 63 : ℚ) ≤ q := by linarith [show (2 : ℚ) ^ 46 ≤ 2 ^ 63 by norm_num]
  have h2 : q < (2 ^ 63 : ℚ) := by linarith [show (2 : ℚ) ^ 46 < 2 ^ 63 by norm_num]
  have hz := (rule2_in_range arch receipt ht h1 h2).1 h50
  refine rule3_of_quarter receipt ht hq (?_ : q = ((4 * truncQ q : Int) : ℚ) / 4)
  push_cast
  rw [hz]
  ring

/-- C19: the code departs from the claim at the total `9007199254740989`, through the same
rounding of `total*100` as in C9.  The total is a whole number, Rule 2 contributes 50, and
Rule 3, whose comment promises 25 points for a multiple of 0.25, contributes 0 because
`total*100` is rounded to `900719925474098944`; the two rules together contribute exactly
50. -/
theorem c19_round_dollar_without_quarter :
    ParseFloat roundLongTotalReceipt.Total = (F64.fin 9007199254740989, none) ∧
    F64.mul (F64.fin 9007199254740989) (F64.fin 100) = F64.fin 900719925474098944 ∧
    rule2 amd64 roundLongTotalReceipt = 50 ∧ rule2 arm64 roundLongTotalReceipt = 50 ∧
    rule3 roundLongTotalReceipt = 0 ∧
    rule2 amd64 roundLongTotalReceipt + rule3 roundLongTotalReceipt = 50 := by
  decide!

/-- When the total parses to a float64 `q` with `|q| <= 2^46`, Rule 3 contributes 25 whenever
Rule 2 contributes 50, and the two rules together contribute 0, 25 or 75; when the total is an
infinity or NaN they contribute 0. -/
theorem rule2_implies_rule3 (arch : Arch) (receipt : Receipt) :
    (∀ q, (ParseFloat receipt.Total).1 = F64.fin q → |q| ≤ 2 ^ 46 →
      (rule2 arch receipt = 50 → rule3 receipt = 25) ∧
      (rule2 arch receipt + rule3 receipt = 0 ∨ rule2 arch receipt + rule3 receipt = 25 ∨
        rule2 arch receipt + rule3 receipt = 75)) ∧
    ((∀ q, (ParseFloat receipt.Total).1 ≠ F64.fin q) →
      rule2 arch receipt + rule3 receipt = 0) := by
  refine ⟨fun q ht hq => ⟨fun h50 => rule3_of_rule2 arch receipt ht hq h50, ?_⟩, fun ht => ?_⟩
  · rcases rule2_values arch receipt with h2 | h2
    · have h3 := rule3_of_rule2 arch receipt ht hq h2
      omega
    · rcases rule3_values receipt with h3 | h3 <;> omega
  · rw [rule2_not_finite arch receipt ht, rule3_not_finite receipt ht]
    rfl

/-! ## C20: the length is a number of bytes -/

theorem utf8ByteSize_go_eq (s : List Char) :
    String.utf8ByteSize.go s = (s.map Char.utf8Size).sum := by
  induction s with
  | nil => rfl
  | cons c cs ih =>
    show String.utf8ByteSize.go cs + c.utf8Size = _
    rw [ih, List.map_cons, List.sum_cons, Nat.add_comm]

theorem len_eq_utf8ByteSize (s : String) : len s.data = s.utf8ByteSize := by
  unfold len
  rw [← utf8ByteSize_go_eq]
  rfl

/-- C20: the length that Rule 5 tests is the number of bytes of the UTF-8 encoding of the
trimmed description.  The description `\u00e9a` has 2 characters and 3 bytes, and its item
earns `ceiling(5 * 0.2) = 1`; the description `\u00e9ab` has 3 characters and 4 bytes, and
its item earns nothing. -/
theorem c20_length_in_bytes :
    (∀ s : String, len s.data = s.utf8ByteSize) ∧
    (∀ item : Item, qualifies item = true ↔
      (String.mk (TrimSpace item.ShortDescription.data)).utf8ByteSize % 3 = 0) ∧
    (twoCharItem.ShortDescription.length = 2 ∧
      len (TrimSpace twoCharItem.ShortDescription.data) = 3 ∧
      Ceil (F64.mul (ParseFloat twoCharItem.Price).1 c0_2) = F64.fin 1 ∧
      itemPoints amd64 twoCharItem = 1 ∧ itemPoints arm64 twoCharItem = 1) ∧
    (threeCharItem.ShortDescription.length = 3 ∧
      len (TrimSpace threeCharItem.ShortDescription.data) = 4 ∧
      itemPoints amd64 threeCharItem = 0 ∧ itemPoints arm64 threeCharItem = 0) := by
  refine ⟨len_eq_utf8ByteSize, ?_, by decide!, by decide!⟩
  intro item
  rw [← len_eq_utf8ByteSize]
  simp [qualifies]

end ReceiptProcessor
